import Mathlib

/-!
# pguint text input/output routines (`src/inout.c`)

A shallow embedding of the decoders `int1in`, `uint1in`, `uint2in`, `uint4in`,
`uint8in`, their helpers `pg_atoi` and `pg_atou`, and the encoders `int1out`,
`uint1out`, `uint2out`, `uint4out`, `uint8out`.

Conventions of the embedding.

* A C string is the list of the characters that stand before its terminating
  NUL; the NULL pointer is `none`.  So `*p == 0` reads `p = []`, and a pointer
  into the string is the suffix that starts there.
* `ereport(ERROR, ...)` and `elog(ERROR, ...)` do not return: the functions
  return `Except Err _` and the error is the class of the report.
* C integers are `Int`/`Nat`; every narrowing conversion is written out with
  an explicit modulus.
* Plain `char` is signed, as on x86-64: only an ASCII character of the
  string can equal a terminator `c ≥ 0` of `pg_atoi` (`charIs`).
* The C library calls (`isspace`, `strchr`, `strtol`, `strtoul`, `strtoull`,
  `sprintf`) follow ISO C in the "C" locale.  The width of `long` is a
  parameter (`Abi`), since the source tests `HAVE_LONG_INT_64`.
-/

namespace PgUint

/-! ## Errors and platform parameters -/

/-- The classes of error the routines report. -/
inductive Err
  /-- `elog(ERROR, "NULL pointer")` -/
  | nullPointer
  /-- `ERRCODE_INVALID_TEXT_REPRESENTATION` -/
  | invalidSyntax
  /-- `ERRCODE_NUMERIC_VALUE_OUT_OF_RANGE` -/
  | outOfRange
  /-- `elog(ERROR, "unsupported result size: %d", size)` -/
  | unsupportedSize
  deriving DecidableEq, Repr

deriving instance DecidableEq for Except

/-- The two data models the source distinguishes: `long` of 64 bits
(`HAVE_LONG_INT_64` defined) or of 32 bits (not defined). -/
inductive Abi
  | lp64
  | ilp32
  deriving DecidableEq, Repr

/-- Number of bits of `long` and `unsigned long`. -/
def Abi.longBits : Abi → Nat
  | .lp64 => 64
  | .ilp32 => 32

/-- Whether `HAVE_LONG_INT_64` is defined. -/
def HAVE_LONG_INT_64 : Abi → Bool
  | .lp64 => true
  | .ilp32 => false

def LONG_MAX (a : Abi) : Int := 2 ^ (a.longBits - 1) - 1
def LONG_MIN (a : Abi) : Int := -(2 ^ (a.longBits - 1))
def ULONG_MAX (a : Abi) : Nat := 2 ^ a.longBits - 1
def ULLONG_MAX : Nat := 2 ^ 64 - 1
def INT_MAX : Int := 2147483647
def INT_MIN : Int := -2147483648
def SHRT_MAX : Int := 32767
def SHRT_MIN : Int := -32768
def SCHAR_MAX : Int := 127
def SCHAR_MIN : Int := -128
def UINT_MAX : Nat := 4294967295
def USHRT_MAX : Nat := 65535
def UCHAR_MAX : Nat := 255

/-! ## C library functions -/

/-- `isspace` in the "C" locale: space, `\t`, `\n`, `\v`, `\f`, `\r`. -/
def isspace (c : Char) : Bool :=
  c == ' ' || c == '\t' || c == '\n' || c == '\x0b' || c == '\x0c' || c == '\r'

/-- A decimal digit `0`..`9`. -/
def isdigit (c : Char) : Bool :=
  decide (48 ≤ c.toNat) && decide (c.toNat ≤ 57)

/-- Value of a decimal digit character. -/
def digitVal (c : Char) : Nat := c.toNat - 48

/-- `strchr(s, c)`: the suffix starting at the first occurrence of `c`, or
`none` (the NULL pointer) when `c` does not occur. -/
def strchr : List Char → Char → Option (List Char)
  | [], _ => none
  | x :: xs, c => if x = c then some (x :: xs) else strchr xs c

/-- The leading white space the `strto*` functions skip. -/
def skipSpace : List Char → List Char
  | [] => []
  | x :: xs => if isspace x then skipSpace xs else x :: xs

/-- The optional sign of the subject sequence: whether it is `-`, and the
text after it. -/
def scanSign : List Char → Bool × List Char
  | '-' :: xs => (true, xs)
  | '+' :: xs => (false, xs)
  | xs => (false, xs)

/-- The run of decimal digits at the head of the text: its value, added to
`acc` as the more significant part, and the text after the run. -/
def scanDigits : List Char → Nat → Nat × List Char
  | [], acc => (acc, [])
  | x :: xs, acc =>
    if isdigit x then scanDigits xs (acc * 10 + digitVal x) else (acc, x :: xs)

/-- The subject sequence of a base 10 conversion. -/
structure Subject where
  /-- the sign is `-` -/
  neg : Bool
  /-- the mathematical value of the digits -/
  mag : Nat
  /-- the text after the last digit -/
  endp : List Char
  deriving DecidableEq, Repr

/-- The digits of the subject sequence, which has to start with one: `none`
when the text does not start with a digit. -/
def digitRun (neg : Bool) : List Char → Option Subject
  | [] => none
  | x :: xs =>
    if isdigit x then
      let r := scanDigits (x :: xs) 0
      some ⟨neg, r.1, r.2⟩
    else none

/-- The subject sequence of `strtol`, `strtoul` and `strtoull` in base 10:
white space, an optional sign, and a non-empty run of digits; `none` when
there is no digit where one is expected (no conversion is performed). -/
def subject (s : List Char) : Option Subject :=
  let t := scanSign (skipSpace s)
  digitRun t.1 t.2

/-- What a `strto*` call leaves: the value returned, the end pointer, and
whether `errno` is `ERANGE` afterwards (the callers clear `errno` first). -/
structure Conv (α : Type) where
  val : α
  endp : List Char
  erange : Bool
  deriving DecidableEq, Repr

/-- `strtol(s, &endp, 10)`. With no conversion the value is 0 and `endp` is
`s`; a value outside `long` gives `LONG_MAX` or `LONG_MIN` and `ERANGE`. -/
def strtol (a : Abi) (s : List Char) : Conv Int :=
  match subject s with
  | none => ⟨0, s, false⟩
  | some u =>
    let v : Int := if u.neg then -(u.mag : Int) else (u.mag : Int)
    if v > LONG_MAX a then ⟨LONG_MAX a, u.endp, true⟩
    else if v < LONG_MIN a then ⟨LONG_MIN a, u.endp, true⟩
    else ⟨v, u.endp, false⟩

/-- Conversion to an unsigned type of `bits` bits, shared by `strtoul` and
`strtoull`: a magnitude above the maximum gives the maximum and `ERANGE`; a
`-` sign negates the value in the unsigned type. -/
def strtouBits (bits : Nat) (s : List Char) : Conv Nat :=
  match subject s with
  | none => ⟨0, s, false⟩
  | some u =>
    if u.mag > 2 ^ bits - 1 then ⟨2 ^ bits - 1, u.endp, true⟩
    else ⟨if u.neg then (2 ^ bits - u.mag) % 2 ^ bits else u.mag, u.endp, false⟩

/-- `strtoul(s, &endp, 10)`. -/
def strtoul (a : Abi) (s : List Char) : Conv Nat := strtouBits a.longBits s

/-- `strtoull(s, &endp, 10)`; `unsigned long long` has 64 bits. -/
def strtoull (s : List Char) : Conv Nat := strtouBits 64 s

/-- The character of a decimal digit. -/
def digitChar : Nat → Char
  | 0 => '0'
  | 1 => '1'
  | 2 => '2'
  | 3 => '3'
  | 4 => '4'
  | 5 => '5'
  | 6 => '6'
  | 7 => '7'
  | 8 => '8'
  | _ => '9'

/-- Decimal digits of `n`, most significant first, in front of `acc`; `fuel`
bounds the number of digits produced. -/
def utoaAux : Nat → Nat → List Char → List Char
  | 0, _, acc => acc
  | fuel + 1, n, acc =>
    if n < 10 then digitChar n :: acc
    else utoaAux fuel (n / 10) (digitChar (n % 10) :: acc)

/-- `sprintf(result, "%u", n)`: the decimal digits of `n`, no padding. -/
def sprintf_u (n : Nat) : List Char := utoaAux (n + 1) n []

/-- `sprintf(result, "%d", v)`: a `-` for a negative value, then the decimal
digits of the magnitude. -/
def sprintf_d (v : Int) : List Char :=
  if v < 0 then '-' :: sprintf_u v.natAbs else sprintf_u v.natAbs

/-! ## Conversions between C integer types and the Datum macros -/

/-- Conversion to a signed type of `bits` bits (two's complement). -/
def toSigned (bits : Nat) (v : Int) : Int :=
  (v + 2 ^ (bits - 1)) % 2 ^ bits - 2 ^ (bits - 1)

/-- Conversion to an unsigned type of `bits` bits. -/
def toUnsigned (bits : Nat) (v : Nat) : Nat := v % 2 ^ bits

/-- Modelled from the spec: `PG_RETURN_INT8` of `uint.h`, which is not part
of the source at hand: "return the validated value narrowed to the target
width's storage representation". -/
def PG_RETURN_INT8 (v : Int) : Int := toSigned 8 v

/-- Modelled from the spec: `PG_RETURN_UINT8` of `uint.h`; see
`PG_RETURN_INT8`. -/
def PG_RETURN_UINT8 (v : Nat) : Nat := toUnsigned 8 v

/-- Modelled from the spec: `PG_RETURN_UINT16`; see `PG_RETURN_INT8`. -/
def PG_RETURN_UINT16 (v : Nat) : Nat := toUnsigned 16 v

/-- Modelled from the spec: `PG_RETURN_UINT32`; see `PG_RETURN_INT8`. -/
def PG_RETURN_UINT32 (v : Nat) : Nat := toUnsigned 32 v

/-- Modelled from the spec: `PG_RETURN_UINT64`; see `PG_RETURN_INT8`. -/
def PG_RETURN_UINT64 (v : Nat) : Nat := toUnsigned 64 v

/-- Modelled from the spec: `PG_GETARG_INT8` of `uint.h`, the signed 8-bit
value stored in the argument. -/
def PG_GETARG_INT8 (d : Int) : Int := toSigned 8 d

/-- Modelled from the spec: `PG_GETARG_UINT8`, the unsigned 8-bit value
stored in the argument. -/
def PG_GETARG_UINT8 (d : Nat) : Nat := toUnsigned 8 d

/-- Modelled from the spec: `PG_GETARG_UINT16`; see `PG_GETARG_UINT8`. -/
def PG_GETARG_UINT16 (d : Nat) : Nat := toUnsigned 16 d

/-- Modelled from the spec: `PG_GETARG_UINT32`; see `PG_GETARG_UINT8`. -/
def PG_GETARG_UINT32 (d : Nat) : Nat := toUnsigned 32 d

/-- Modelled from the spec: `PG_GETARG_UINT64`; see `PG_GETARG_UINT8`. -/
def PG_GETARG_UINT64 (d : Nat) : Nat := toUnsigned 64 d

/-! ## `pg_atoi` and `int1in`, `int1out` -/

/-- The comparison `*badp == c` of `pg_atoi`, for a character `x` of the
string and a terminator `int c` that is not negative. `*badp` is a plain
`char`, which is signed (as on x86-64), promoted to `int`: an ASCII character
gives its code, and a character outside ASCII stands for bytes of 0x80 and
above, which are negative and equal no such `c`. -/
def charIs (x : Char) (c : Nat) : Bool :=
  decide (x.toNat < 128 ∧ x.toNat = c)

/-- The loop `while (*badp && *badp != c && isspace(*badp)) badp++;` of
`pg_atoi`. -/
def skipTrailUntil (c : Nat) : List Char → List Char
  | [] => []
  | x :: xs =>
    if charIs x c = false ∧ isspace x = true then skipTrailUntil c xs else x :: xs

/-- The test `*badp && *badp != c` of `pg_atoi`. -/
def garbageBefore (c : Nat) : List Char → Bool
  | [] => false
  | x :: _ => !charIs x c

/-- The `switch (size)` of `pg_atoi`: `none` when the value passes the range
test of its size, and the error reported otherwise. -/
def atoiRange (a : Abi) (size : Nat) (r : Conv Int) : Option Err :=
  if size = 4 then
    if r.erange || (HAVE_LONG_INT_64 a && (decide (r.val < INT_MIN) || decide (r.val > INT_MAX)))
    then some .outOfRange else none
  else if size = 2 then
    if r.erange || decide (r.val < SHRT_MIN) || decide (r.val > SHRT_MAX)
    then some .outOfRange else none
  else if size = 1 then
    if r.erange || decide (r.val < SCHAR_MIN) || decide (r.val > SCHAR_MAX)
    then some .outOfRange else none
  else some .unsupportedSize

/-- `pg_atoi(s, size, c)`, for a terminator `c` that is not negative. The
comparison `s == badp` of two pointers into the same string is the comparison
of the lengths that remain. -/
def pg_atoi (a : Abi) (s : Option (List Char)) (size : Nat) (c : Nat) : Except Err Int :=
  match s with
  | none => .error .nullPointer
  | some s =>
    if s = [] then .error .invalidSyntax
    else
      let r := strtol a s
      if r.endp.length = s.length then .error .invalidSyntax
      else
        match atoiRange a size r with
        | some e => .error e
        | none =>
          let badp := skipTrailUntil c r.endp
          if garbageBefore c badp then .error .invalidSyntax
          else .ok (toSigned 32 r.val)

/-- `int1in`: `PG_RETURN_INT8(pg_atoi(s, sizeof(int8), 0))`. -/
def int1in (a : Abi) (s : Option (List Char)) : Except Err Int :=
  (pg_atoi a s 1 0).map PG_RETURN_INT8

/-- `int1out`: `sprintf(result, "%d", arg1)` for the `int8` argument. -/
def int1out (d : Int) : List Char := sprintf_d (PG_GETARG_INT8 d)

/-! ## `pg_atou` and the unsigned routines -/

/-- The loop `while (*badp && isspace(*badp)) badp++;`. -/
def skipTrail : List Char → List Char
  | [] => []
  | x :: xs => if isspace x then skipTrail xs else x :: xs

/-- The `switch (size)` of `pg_atou`: the flag `out_of_range`, or the error
of the default branch. -/
def atouRange (a : Abi) (size : Nat) (r : Conv Nat) : Except Err Bool :=
  if size = 4 then
    .ok (r.erange || (HAVE_LONG_INT_64 a && decide (r.val > UINT_MAX)))
  else if size = 2 then
    .ok (r.erange || decide (r.val > USHRT_MAX))
  else if size = 1 then
    .ok (r.erange || decide (r.val > UCHAR_MAX))
  else .error .unsupportedSize

/-- `pg_atou(s, size)`; the value returned is converted to `uint32`. -/
def pg_atou (a : Abi) (s : Option (List Char)) (size : Nat) : Except Err Nat :=
  match s with
  | none => .error .nullPointer
  | some s =>
    if s = [] then .error .invalidSyntax
    else if (strchr s '-').isSome then .error .invalidSyntax
    else
      let r := strtoul a s
      match atouRange a size r with
      | .error e => .error e
      | .ok true => .error .outOfRange
      | .ok false =>
        let badp := skipTrail r.endp
        if badp ≠ [] then .error .invalidSyntax
        else .ok (toUnsigned 32 r.val)

/-- `uint1in`: `PG_RETURN_UINT8(pg_atou(s, sizeof(uint8)))`. -/
def uint1in (a : Abi) (s : Option (List Char)) : Except Err Nat :=
  (pg_atou a s 1).map PG_RETURN_UINT8

/-- `uint2in`: `PG_RETURN_UINT16(pg_atou(s, sizeof(uint16)))`. -/
def uint2in (a : Abi) (s : Option (List Char)) : Except Err Nat :=
  (pg_atou a s 2).map PG_RETURN_UINT16

/-- `uint4in`: `PG_RETURN_UINT32(pg_atou(s, sizeof(uint32)))`. -/
def uint4in (a : Abi) (s : Option (List Char)) : Except Err Nat :=
  (pg_atou a s 4).map PG_RETURN_UINT32

/-- `uint8in`, which does not go through `pg_atou`. -/
def uint8in (s : Option (List Char)) : Except Err Nat :=
  match s with
  | none => .error .nullPointer
  | some s =>
    if s = [] then .error .invalidSyntax
    else if (strchr s '-').isSome then .error .invalidSyntax
    else
      let r := strtoull s
      if r.erange then .error .outOfRange
      else
        let badp := skipTrail r.endp
        if badp ≠ [] then .error .invalidSyntax
        else .ok (PG_RETURN_UINT64 r.val)

/-- `uint1out`: `sprintf(result, "%u", arg1)` for the `uint8` argument. -/
def uint1out (d : Nat) : List Char := sprintf_u (PG_GETARG_UINT8 d)

/-- `uint2out`. -/
def uint2out (d : Nat) : List Char := sprintf_u (PG_GETARG_UINT16 d)

/-- `uint4out`. -/
def uint4out (d : Nat) : List Char := sprintf_u (PG_GETARG_UINT32 d)

/-- `uint8out`: `sprintf(result, "%" PRIu64, (uint64_t) arg1)`. -/
def uint8out (d : Nat) : List Char := sprintf_u (PG_GETARG_UINT64 d)

/-! ## Vocabulary of the statements -/

/-- The decimal value of a string of digits, read left to right. -/
def decimalValue (ds : List Char) : Nat :=
  ds.foldl (fun n c => 10 * n + digitVal c) 0

/-- Every character is a decimal digit. -/
def AllDigits (ds : List Char) : Prop := ∀ c ∈ ds, isdigit c = true

/-- Every character is white space. -/
def AllSpace (w : List Char) : Prop := ∀ c ∈ w, isspace c = true

/-- The text starts with a decimal digit. -/
def startsDigit : List Char → Bool
  | [] => false
  | x :: _ => isdigit x

instance (ds : List Char) : Decidable (AllDigits ds) := by
  unfold AllDigits; infer_instance

instance (w : List Char) : Decidable (AllSpace w) := by
  unfold AllSpace; infer_instance

/-- The largest value of the unsigned type of `size` bytes. -/
def umax (size : Nat) : Nat := 2 ^ (8 * size) - 1

/-- An optional sign: nothing, `+` or `-`. -/
def IsSign (sg : List Char) : Prop := sg = [] ∨ sg = ['+'] ∨ sg = ['-']

instance (sg : List Char) : Decidable (IsSign sg) := by
  unfold IsSign; infer_instance

/-- The integer a sign and a string of digits denote. -/
def signedValue (sg ds : List Char) : Int :=
  if sg = ['-'] then -(decimalValue ds : Int) else (decimalValue ds : Int)

/-- The least value of the signed type of `size` bytes. -/
def smin (size : Nat) : Int := -(2 ^ (8 * size - 1))

/-- The largest value of the signed type of `size` bytes. -/
def smax (size : Nat) : Int := 2 ^ (8 * size - 1) - 1

/-- The integer a subject sequence denotes. -/
def Subject.value (u : Subject) : Int :=
  if u.neg then -(u.mag : Int) else (u.mag : Int)

/-- Canonical decimal text: a non-empty string of digits whose first
character is `0` only when the whole string is "0". -/
def Canonical (ds : List Char) : Prop :=
  ds ≠ [] ∧ AllDigits ds ∧ (ds.head? = some '0' → ds = ['0'])

instance (ds : List Char) : Decidable (Canonical ds) := by
  unfold Canonical; infer_instance

/-- The error of the first validation stage that fails on an input that is
not NULL, in the order: empty string, minus-sign scan (unsigned widths only),
no digit, range check against `[lo, hi]`, text other than white space after
the numeral; `none` when no stage fails. -/
def firstFailure (unsignedWidth : Bool) (lo hi : Int) (s : List Char) : Option Err :=
  if s = [] then some .invalidSyntax
  else if unsignedWidth = true ∧ '-' ∈ s then some .invalidSyntax
  else
    match subject s with
    | none => some .invalidSyntax
    | some u =>
      if u.value < lo ∨ hi < u.value then some .outOfRange
      else if skipSpace u.endp ≠ [] then some .invalidSyntax
      else none

/-- The result of an unsigned decoder whose largest value is `max`, written
with the subject sequence of the input; the decoders are proved equal to it
in `uint1in_eq`, `uint2in_eq`, `uint4in_eq` and `uint8in_eq`. -/
def unsignedResult (max : Nat) (s : List Char) : Except Err Nat :=
  if s = [] then .error .invalidSyntax
  else if '-' ∈ s then .error .invalidSyntax
  else
    match subject s with
    | none => if skipSpace s ≠ [] then .error .invalidSyntax else .ok 0
    | some u =>
      if u.mag > max then .error .outOfRange
      else if skipSpace u.endp ≠ [] then .error .invalidSyntax
      else .ok u.mag

/-! ## Characters -/

theorem isspace_cases {c : Char} (h : isspace c = true) :
    c = ' ' ∨ c = '\t' ∨ c = '\n' ∨ c = '\x0b' ∨ c = '\x0c' ∨ c = '\r' := by
  simpa [isspace, or_assoc] using h

theorem isspace_toNat_lt {c : Char} (h : isspace c = true) : c.toNat < 33 := by
  rcases isspace_cases h with h | h | h | h | h | h <;> subst h <;> decide

theorem isspace_toNat_pos {c : Char} (h : isspace c = true) : 0 < c.toNat := by
  rcases isspace_cases h with h | h | h | h | h | h <;> subst h <;> decide

theorem isdigit_iff {c : Char} : isdigit c = true ↔ 48 ≤ c.toNat ∧ c.toNat ≤ 57 := by
  simp [isdigit]

theorem isdigit_of_isspace {c : Char} (h : isspace c = true) : isdigit c = false := by
  have h1 := isspace_toNat_lt h
  cases hd : isdigit c with
  | false => rfl
  | true => have := isdigit_iff.mp hd; omega

theorem isspace_of_isdigit {c : Char} (h : isdigit c = true) : isspace c = false := by
  cases hs : isspace c with
  | false => rfl
  | true => rw [isdigit_of_isspace hs] at h; cases h

theorem digitVal_lt {c : Char} (h : isdigit c = true) : digitVal c < 10 := by
  have := isdigit_iff.mp h
  unfold digitVal; omega

theorem minus_not_space : isspace '-' = false := by decide

theorem minus_not_digit : isdigit '-' = false := by decide

theorem plus_not_digit : isdigit '+' = false := by decide

theorem ne_minus_of_isdigit {c : Char} (h : isdigit c = true) : c ≠ '-' := by
  rintro rfl; rw [minus_not_digit] at h; cases h

theorem ne_plus_of_isdigit {c : Char} (h : isdigit c = true) : c ≠ '+' := by
  rintro rfl; rw [plus_not_digit] at h; cases h

theorem ne_minus_of_isspace {c : Char} (h : isspace c = true) : c ≠ '-' := by
  rintro rfl; rw [minus_not_space] at h; cases h

theorem charIs_false_of_ne {x : Char} {c : Nat} (h : x.toNat ≠ c) : charIs x c = false := by
  simp [charIs, h]

theorem charIs_zero (x : Char) : charIs x 0 = decide (x.toNat = 0) := by
  by_cases h : x.toNat = 0
  · simp [charIs, h]
  · simp [charIs, h]

theorem startsDigit_of_allSpace {w : List Char} (h : AllSpace w) : startsDigit w = false := by
  cases w with
  | nil => rfl
  | cons x xs => exact isdigit_of_isspace (h x (List.mem_cons_self _ _))

/-! ## Scanning -/

theorem skipSpace_allSpace_append {w : List Char} (h : AllSpace w) (s : List Char) :
    skipSpace (w ++ s) = skipSpace s := by
  induction w with
  | nil => rfl
  | cons x xs ih =>
    have hx : isspace x = true := h x (List.mem_cons_self _ _)
    have hxs : AllSpace xs := fun c hc => h c (List.mem_cons_of_mem _ hc)
    simp [skipSpace, hx, ih hxs]

theorem skipSpace_allSpace {w : List Char} (h : AllSpace w) : skipSpace w = [] := by
  have := skipSpace_allSpace_append h []
  simpa [skipSpace] using this

theorem skipSpace_cons_of_not {x : Char} (hx : isspace x = false) (xs : List Char) :
    skipSpace (x :: xs) = x :: xs := by
  simp [skipSpace, hx]

theorem skipTrail_eq_skipSpace (s : List Char) : skipTrail s = skipSpace s := by
  induction s with
  | nil => rfl
  | cons x xs ih => simp [skipTrail, skipSpace, ih]

theorem scanDigits_append {ds : List Char} (hd : AllDigits ds) (rest : List Char)
    (hr : startsDigit rest = false) (acc : Nat) :
    scanDigits (ds ++ rest) acc
      = (ds.foldl (fun n c => 10 * n + digitVal c) acc, rest) := by
  induction ds generalizing acc with
  | nil =>
    cases rest with
    | nil => rfl
    | cons y ys =>
      have hy : isdigit y = false := hr
      simp [scanDigits, hy]
  | cons x xs ih =>
    have hx : isdigit x = true := hd x (List.mem_cons_self _ _)
    have hxs : AllDigits xs := fun c hc => hd c (List.mem_cons_of_mem _ hc)
    simp [scanDigits, hx, ih hxs, Nat.mul_comm]

theorem scanSign_digit {x : Char} (hx : isdigit x = true) (xs : List Char) :
    scanSign (x :: xs) = (false, x :: xs) := by
  have h1 := ne_minus_of_isdigit hx
  have h2 := ne_plus_of_isdigit hx
  unfold scanSign
  split
  · rename_i h; cases h; exact absurd rfl h1
  · rename_i h; cases h; exact absurd rfl h2
  · rfl

/-- The subject sequence of white space followed by digits and then by
text that does not start with a digit. -/
theorem subject_digits {w ds : List Char} (hw : AllSpace w) (hne : ds ≠ [])
    (hd : AllDigits ds) (rest : List Char) (hr : startsDigit rest = false) :
    subject (w ++ (ds ++ rest)) = some ⟨false, decimalValue ds, rest⟩ := by
  cases ds with
  | nil => exact absurd rfl hne
  | cons x xs =>
    have hx : isdigit x = true := hd x (List.mem_cons_self _ _)
    have hsp := isspace_of_isdigit hx
    have hsc := scanDigits_append hd rest hr 0
    simp only [List.cons_append] at hsc
    simp only [subject, digitRun, skipSpace_allSpace_append hw, List.cons_append,
      skipSpace_cons_of_not hsp, scanSign_digit hx, hx, hsc, if_true, decimalValue]

/-- The subject sequence of white space followed by `-`, digits and then
text that does not start with a digit. -/
theorem subject_minus_digits {w ds : List Char} (hw : AllSpace w) (hne : ds ≠ [])
    (hd : AllDigits ds) (rest : List Char) (hr : startsDigit rest = false) :
    subject (w ++ '-' :: (ds ++ rest)) = some ⟨true, decimalValue ds, rest⟩ := by
  cases ds with
  | nil => exact absurd rfl hne
  | cons x xs =>
    have hx : isdigit x = true := hd x (List.mem_cons_self _ _)
    have hsc := scanDigits_append hd rest hr 0
    simp only [List.cons_append] at hsc
    simp only [subject, digitRun, skipSpace_allSpace_append hw, List.cons_append,
      skipSpace_cons_of_not minus_not_space, scanSign, hx, hsc, if_true, decimalValue]

/-- The subject sequence of white space followed by `+`, digits and then
text that does not start with a digit. -/
theorem subject_plus_digits {w ds : List Char} (hw : AllSpace w) (hne : ds ≠ [])
    (hd : AllDigits ds) (rest : List Char) (hr : startsDigit rest = false) :
    subject (w ++ '+' :: (ds ++ rest)) = some ⟨false, decimalValue ds, rest⟩ := by
  cases ds with
  | nil => exact absurd rfl hne
  | cons x xs =>
    have hx : isdigit x = true := hd x (List.mem_cons_self _ _)
    have hsc := scanDigits_append hd rest hr 0
    simp only [List.cons_append] at hsc
    have hps : isspace '+' = false := by decide
    simp only [subject, digitRun, skipSpace_allSpace_append hw, List.cons_append,
      skipSpace_cons_of_not hps, scanSign, hx, hsc, if_true, decimalValue]

/-! ## The unsigned decoders on a numeral -/

theorem strchr_isSome (s : List Char) (c : Char) : (strchr s c).isSome = true ↔ c ∈ s := by
  induction s with
  | nil => simp [strchr]
  | cons x xs ih =>
    by_cases hx : x = c
    · simp [strchr, hx]
    · have hx2 : ¬ c = x := fun h => hx h.symm
      simp [strchr, hx, hx2, ih]

theorem minus_not_mem_of_allSpace {w : List Char} (h : AllSpace w) : '-' ∉ w :=
  fun hm => ne_minus_of_isspace (h _ hm) rfl

theorem minus_not_mem_of_allDigits {ds : List Char} (h : AllDigits ds) : '-' ∉ ds :=
  fun hm => ne_minus_of_isdigit (h _ hm) rfl

theorem strtouBits_digits (bits : Nat) {w ds : List Char} (hw : AllSpace w) (hne : ds ≠ [])
    (hd : AllDigits ds) (rest : List Char) (hr : startsDigit rest = false) :
    strtouBits bits (w ++ (ds ++ rest))
      = if decimalValue ds > 2 ^ bits - 1 then ⟨2 ^ bits - 1, rest, true⟩
        else ⟨decimalValue ds, rest, false⟩ := by
  simp [strtouBits, subject_digits hw hne hd rest hr]

theorem atouRange_conv (a : Abi) {size : Nat} (hs : size = 1 ∨ size = 2 ∨ size = 4)
    (n : Nat) (rest : List Char) :
    atouRange a size
        (if n > 2 ^ a.longBits - 1 then ⟨2 ^ a.longBits - 1, rest, true⟩ else ⟨n, rest, false⟩)
      = .ok (decide (n > umax size)) := by
  rcases hs with rfl | rfl | rfl <;> cases a <;>
    simp only [atouRange, Abi.longBits, HAVE_LONG_INT_64, UINT_MAX, USHRT_MAX, UCHAR_MAX, umax] <;>
    norm_num <;> split_ifs <;> simp <;> omega

/-- What `pg_atou` does with white space, a non-empty run of digits, and text
that does not start with a digit. -/
theorem pg_atou_numeral (a : Abi) {size : Nat} (hs : size = 1 ∨ size = 2 ∨ size = 4)
    {w ds : List Char} (hw : AllSpace w) (hne : ds ≠ []) (hd : AllDigits ds)
    (rest : List Char) (hr : startsDigit rest = false) :
    pg_atou a (some (w ++ (ds ++ rest))) size
      = if '-' ∈ rest then .error .invalidSyntax
        else if decimalValue ds > umax size then .error .outOfRange
        else if skipTrail rest ≠ [] then .error .invalidSyntax
        else .ok (decimalValue ds) := by
  have hnil : w ++ (ds ++ rest) ≠ [] := by simp [hne]
  have hmem : ('-' ∈ w ++ (ds ++ rest)) ↔ '-' ∈ rest := by
    simp [minus_not_mem_of_allSpace hw, minus_not_mem_of_allDigits hd]
  have hchr : (strchr (w ++ (ds ++ rest)) '-').isSome = decide ('-' ∈ rest) := by
    rw [Bool.eq_iff_iff, strchr_isSome, hmem]; simp
  unfold pg_atou
  simp only [hnil, if_false, hchr]
  by_cases hm : '-' ∈ rest
  · simp [hm]
  · simp only [hm, decide_False, if_false, Bool.false_eq_true]
    simp only [strtoul, strtouBits_digits a.longBits hw hne hd rest hr, atouRange_conv a hs]
    by_cases hgt : decimalValue ds > umax size
    · simp [hgt]
    · have hle : decimalValue ds ≤ 2 ^ a.longBits - 1 := by
        have : umax size ≤ 2 ^ a.longBits - 1 := by
          rcases hs with rfl | rfl | rfl <;> cases a <;> simp [umax, Abi.longBits]
        omega
      have hlt : decimalValue ds < 2 ^ 32 := by
        have : umax size < 2 ^ 32 := by
          rcases hs with rfl | rfl | rfl <;> simp [umax]
        omega
      have hng : ¬ decimalValue ds > 2 ^ a.longBits - 1 := by omega
      simp only [hgt, decide_False, hng, if_false, toUnsigned, Nat.mod_eq_of_lt hlt]

/-- What `uint8in` does with white space, a non-empty run of digits, and
text that does not start with a digit. -/
theorem uint8in_numeral {w ds : List Char} (hw : AllSpace w) (hne : ds ≠ [])
    (hd : AllDigits ds) (rest : List Char) (hr : startsDigit rest = false) :
    uint8in (some (w ++ (ds ++ rest)))
      = if '-' ∈ rest then .error .invalidSyntax
        else if decimalValue ds > umax 8 then .error .outOfRange
        else if skipTrail rest ≠ [] then .error .invalidSyntax
        else .ok (decimalValue ds) := by
  have hnil : w ++ (ds ++ rest) ≠ [] := by simp [hne]
  have hmem : ('-' ∈ w ++ (ds ++ rest)) ↔ '-' ∈ rest := by
    simp [minus_not_mem_of_allSpace hw, minus_not_mem_of_allDigits hd]
  have hchr : (strchr (w ++ (ds ++ rest)) '-').isSome = decide ('-' ∈ rest) := by
    rw [Bool.eq_iff_iff, strchr_isSome, hmem]; simp
  unfold uint8in
  simp only [hnil, if_false, hchr]
  by_cases hm : '-' ∈ rest
  · simp [hm]
  · simp only [hm, decide_False, if_false, Bool.false_eq_true]
    simp only [strtoull, strtouBits_digits 64 hw hne hd rest hr]
    by_cases hgt : decimalValue ds > umax 8
    · have hgt2 : decimalValue ds > 2 ^ 64 - 1 := by simpa [umax] using hgt
      rw [if_pos hgt2, if_pos hgt]; rfl
    · have hng : ¬ decimalValue ds > 2 ^ 64 - 1 := by simpa [umax] using hgt
      have hlt : decimalValue ds < 2 ^ 64 := by omega
      rw [if_neg hng, if_neg hgt]
      simp only [if_false, PG_RETURN_UINT64, toUnsigned, Nat.mod_eq_of_lt hlt,
        Bool.false_eq_true]

theorem uint1in_numeral (a : Abi) {w ds : List Char} (hw : AllSpace w) (hne : ds ≠ [])
    (hd : AllDigits ds) (rest : List Char) (hr : startsDigit rest = false) :
    uint1in a (some (w ++ (ds ++ rest)))
      = if '-' ∈ rest then .error .invalidSyntax
        else if decimalValue ds > umax 1 then .error .outOfRange
        else if skipTrail rest ≠ [] then .error .invalidSyntax
        else .ok (decimalValue ds) := by
  rw [uint1in, pg_atou_numeral a (Or.inl rfl) hw hne hd rest hr]
  split_ifs with h1 h2 h3
  · rfl
  · rfl
  · rfl
  · have : decimalValue ds < 256 := by simp [umax] at h2; omega
    simp [Except.map, PG_RETURN_UINT8, toUnsigned, Nat.mod_eq_of_lt this]

theorem uint2in_numeral (a : Abi) {w ds : List Char} (hw : AllSpace w) (hne : ds ≠ [])
    (hd : AllDigits ds) (rest : List Char) (hr : startsDigit rest = false) :
    uint2in a (some (w ++ (ds ++ rest)))
      = if '-' ∈ rest then .error .invalidSyntax
        else if decimalValue ds > umax 2 then .error .outOfRange
        else if skipTrail rest ≠ [] then .error .invalidSyntax
        else .ok (decimalValue ds) := by
  rw [uint2in, pg_atou_numeral a (Or.inr (Or.inl rfl)) hw hne hd rest hr]
  split_ifs with h1 h2 h3
  · rfl
  · rfl
  · rfl
  · have : decimalValue ds < 65536 := by simp [umax] at h2; omega
    simp [Except.map, PG_RETURN_UINT16, toUnsigned, Nat.mod_eq_of_lt this]

theorem uint4in_numeral (a : Abi) {w ds : List Char} (hw : AllSpace w) (hne : ds ≠ [])
    (hd : AllDigits ds) (rest : List Char) (hr : startsDigit rest = false) :
    uint4in a (some (w ++ (ds ++ rest)))
      = if '-' ∈ rest then .error .invalidSyntax
        else if decimalValue ds > umax 4 then .error .outOfRange
        else if skipTrail rest ≠ [] then .error .invalidSyntax
        else .ok (decimalValue ds) := by
  rw [uint4in, pg_atou_numeral a (Or.inr (Or.inr rfl)) hw hne hd rest hr]
  split_ifs with h1 h2 h3
  · rfl
  · rfl
  · rfl
  · have : decimalValue ds < 4294967296 := by simp [umax] at h2; omega
    simp [Except.map, PG_RETURN_UINT32, toUnsigned, Nat.mod_eq_of_lt this]

/-! ## The signed decoder on a numeral -/

theorem subject_signed {w sg ds : List Char} (hw : AllSpace w) (hsg : IsSign sg)
    (hne : ds ≠ []) (hd : AllDigits ds) (rest : List Char) (hr : startsDigit rest = false) :
    subject (w ++ (sg ++ (ds ++ rest)))
      = some ⟨decide (sg = ['-']), decimalValue ds, rest⟩ := by
  rcases hsg with rfl | rfl | rfl
  · simpa using subject_digits hw hne hd rest hr
  · simpa using subject_plus_digits hw hne hd rest hr
  · simpa using subject_minus_digits hw hne hd rest hr

theorem strtol_signed (a : Abi) {w sg ds : List Char} (hw : AllSpace w) (hsg : IsSign sg)
    (hne : ds ≠ []) (hd : AllDigits ds) (rest : List Char) (hr : startsDigit rest = false) :
    strtol a (w ++ (sg ++ (ds ++ rest)))
      = if signedValue sg ds > LONG_MAX a then ⟨LONG_MAX a, rest, true⟩
        else if signedValue sg ds < LONG_MIN a then ⟨LONG_MIN a, rest, true⟩
        else ⟨signedValue sg ds, rest, false⟩ := by
  simp only [strtol, subject_signed hw hsg hne hd rest hr, signedValue, decide_eq_true_eq]

theorem atoiRange_conv (a : Abi) {size : Nat} (hs : size = 1 ∨ size = 2 ∨ size = 4)
    (v : Int) (rest : List Char) :
    atoiRange a size
        (if v > LONG_MAX a then ⟨LONG_MAX a, rest, true⟩
         else if v < LONG_MIN a then ⟨LONG_MIN a, rest, true⟩
         else ⟨v, rest, false⟩)
      = if v < smin size ∨ v > smax size then some .outOfRange else none := by
  rcases hs with rfl | rfl | rfl <;> cases a <;>
    simp only [atoiRange, Abi.longBits, HAVE_LONG_INT_64, INT_MIN, INT_MAX, SHRT_MIN, SHRT_MAX,
      SCHAR_MIN, SCHAR_MAX, LONG_MAX, LONG_MIN, smin, smax] <;>
    norm_num <;> split_ifs <;> first | omega | simp_all

theorem toSigned32_of_range {size : Nat} (hs : size = 1 ∨ size = 2 ∨ size = 4) {v : Int}
    (h : ¬ (v < smin size ∨ v > smax size)) : toSigned 32 v = v := by
  rcases hs with rfl | rfl | rfl <;> simp only [smin, smax, toSigned] at * <;>
    norm_num at * <;> omega

/-- What `pg_atoi` does with white space, an optional sign, a non-empty run
of digits, and text that does not start with a digit. -/
theorem pg_atoi_numeral (a : Abi) {size : Nat} (hs : size = 1 ∨ size = 2 ∨ size = 4) (c : Nat)
    {w sg ds : List Char} (hw : AllSpace w) (hsg : IsSign sg) (hne : ds ≠ [])
    (hd : AllDigits ds) (rest : List Char) (hr : startsDigit rest = false) :
    pg_atoi a (some (w ++ (sg ++ (ds ++ rest)))) size c
      = if signedValue sg ds < smin size ∨ signedValue sg ds > smax size
          then .error .outOfRange
        else if garbageBefore c (skipTrailUntil c rest) = true then .error .invalidSyntax
        else .ok (signedValue sg ds) := by
  have hnil : w ++ (sg ++ (ds ++ rest)) ≠ [] := by simp [hne]
  have hconv := strtol_signed a hw hsg hne hd rest hr
  have hendp : (strtol a (w ++ (sg ++ (ds ++ rest)))).endp = rest := by
    rw [hconv]; split_ifs <;> rfl
  have hrng : atoiRange a size (strtol a (w ++ (sg ++ (ds ++ rest))))
      = if signedValue sg ds < smin size ∨ signedValue sg ds > smax size
          then some .outOfRange else none := by
    rw [hconv]; exact atoiRange_conv a hs _ rest
  have hval : ¬ (signedValue sg ds < smin size ∨ signedValue sg ds > smax size) →
      (strtol a (w ++ (sg ++ (ds ++ rest)))).val = signedValue sg ds := by
    intro hin
    rw [hconv]
    have h1 : ¬ signedValue sg ds > LONG_MAX a := by
      rcases hs with rfl | rfl | rfl <;> cases a <;>
        simp only [smin, smax, LONG_MAX, Abi.longBits] at * <;> norm_num at * <;> omega
    have h2 : ¬ signedValue sg ds < LONG_MIN a := by
      rcases hs with rfl | rfl | rfl <;> cases a <;>
        simp only [smin, smax, LONG_MIN, Abi.longBits] at * <;> norm_num at * <;> omega
    rw [if_neg h1, if_neg h2]
  have hlen : ¬ rest.length = (w ++ (sg ++ (ds ++ rest))).length := by
    have : 0 < ds.length := List.length_pos.mpr hne
    simp only [List.length_append]; omega
  unfold pg_atoi
  simp only [hnil, if_false, hendp, hlen, hrng]
  by_cases hin : signedValue sg ds < smin size ∨ signedValue sg ds > smax size
  · simp only [hin, if_true]
  · simp only [hin, if_false, hval hin, toSigned32_of_range hs hin]

/-- What `int1in` does with white space, an optional sign, a non-empty run
of digits, and text that does not start with a digit. -/
theorem int1in_numeral (a : Abi) {w sg ds : List Char} (hw : AllSpace w) (hsg : IsSign sg)
    (hne : ds ≠ []) (hd : AllDigits ds) (rest : List Char) (hr : startsDigit rest = false) :
    int1in a (some (w ++ (sg ++ (ds ++ rest))))
      = if signedValue sg ds < -128 ∨ signedValue sg ds > 127 then .error .outOfRange
        else if garbageBefore 0 (skipTrailUntil 0 rest) = true then .error .invalidSyntax
        else .ok (signedValue sg ds) := by
  rw [int1in, pg_atoi_numeral a (Or.inl rfl) 0 hw hsg hne hd rest hr]
  have e1 : smin 1 = -128 := by simp [smin]
  have e2 : smax 1 = 127 := by simp [smax]
  rw [e1, e2]
  split_ifs with h1 h2
  · rfl
  · rfl
  · have : toSigned 8 (signedValue sg ds) = signedValue sg ds := by
      simp only [toSigned]; norm_num; omega
    simp [Except.map, PG_RETURN_INT8, this]

/-! ## The encoders -/

theorem digitChar_isdigit {d : Nat} (h : d < 10) : isdigit (digitChar d) = true := by
  interval_cases d <;> decide

theorem digitVal_digitChar {d : Nat} (h : d < 10) : digitVal (digitChar d) = d := by
  interval_cases d <;> decide

theorem decimalValue_snoc (ds : List Char) (c : Char) :
    decimalValue (ds ++ [c]) = 10 * decimalValue ds + digitVal c := by
  simp [decimalValue, List.foldl_append]

theorem utoaAux_acc (fuel n : Nat) (acc : List Char) :
    utoaAux fuel n acc = utoaAux fuel n [] ++ acc := by
  induction fuel generalizing n acc with
  | zero => simp [utoaAux]
  | succ f ih =>
    unfold utoaAux
    split_ifs
    · simp
    · rw [ih (n / 10) (digitChar (n % 10) :: acc), ih (n / 10) [digitChar (n % 10)]]
      simp

theorem utoaAux_allDigits (fuel n : Nat) : AllDigits (utoaAux fuel n []) := by
  induction fuel generalizing n with
  | zero => intro c hc; simp [utoaAux] at hc
  | succ f ih =>
    unfold utoaAux
    split_ifs with h
    · intro c hc
      simp only [List.mem_singleton] at hc
      subst hc
      exact digitChar_isdigit h
    · rw [utoaAux_acc]
      intro c hc
      rcases List.mem_append.mp hc with hc | hc
      · exact ih _ c hc
      · simp only [List.mem_singleton] at hc
        subst hc
        exact digitChar_isdigit (Nat.mod_lt _ (by decide))

theorem utoaAux_ne_nil {fuel : Nat} (n : Nat) (h : 0 < fuel) : utoaAux fuel n [] ≠ [] := by
  cases fuel with
  | zero => omega
  | succ f =>
    unfold utoaAux
    split_ifs
    · simp
    · rw [utoaAux_acc]; simp

theorem utoaAux_value {fuel n : Nat} (h : n < fuel) : decimalValue (utoaAux fuel n []) = n := by
  induction fuel generalizing n with
  | zero => omega
  | succ f ih =>
    unfold utoaAux
    split_ifs with h10
    · simp [decimalValue, digitVal_digitChar h10]
    · have hlt : n / 10 < f := by omega
      rw [utoaAux_acc, decimalValue_snoc, ih hlt,
        digitVal_digitChar (Nat.mod_lt _ (by decide))]
      omega

theorem sprintf_u_ne_nil (n : Nat) : sprintf_u n ≠ [] :=
  utoaAux_ne_nil n (Nat.succ_pos n)

theorem sprintf_u_allDigits (n : Nat) : AllDigits (sprintf_u n) :=
  utoaAux_allDigits (n + 1) n

theorem sprintf_u_value (n : Nat) : decimalValue (sprintf_u n) = n :=
  utoaAux_value (Nat.lt_succ_self n)

theorem sprintf_d_form (v : Int) :
    sprintf_d v = (if v < 0 then ['-'] else []) ++ sprintf_u v.natAbs
      ∧ signedValue (if v < 0 then ['-'] else []) (sprintf_u v.natAbs) = v := by
  unfold sprintf_d signedValue
  rw [sprintf_u_value]
  by_cases h : v < 0
  · simp only [h, if_true, List.singleton_append, true_and]
    omega
  · simp only [h, if_false, List.nil_append, true_and]
    have : ¬ (([] : List Char) = ['-']) := by simp
    rw [if_neg this]
    omega

/-! ## The decoders on a bare numeral -/

theorem allSpace_nil : AllSpace [] := fun _ h => absurd h (List.not_mem_nil _)

theorem uint1in_digits (a : Abi) {ds : List Char} (hne : ds ≠ []) (hd : AllDigits ds) :
    uint1in a (some ds)
      = if decimalValue ds ≤ 255 then .ok (decimalValue ds) else .error .outOfRange := by
  have h := uint1in_numeral a allSpace_nil hne hd [] rfl
  simp only [List.nil_append, List.append_nil, List.not_mem_nil, if_false, skipTrail,
    ne_eq, not_true_eq_false, umax] at h
  rw [h]
  split_ifs <;> first | rfl | omega

theorem uint2in_digits (a : Abi) {ds : List Char} (hne : ds ≠ []) (hd : AllDigits ds) :
    uint2in a (some ds)
      = if decimalValue ds ≤ 65535 then .ok (decimalValue ds) else .error .outOfRange := by
  have h := uint2in_numeral a allSpace_nil hne hd [] rfl
  simp only [List.nil_append, List.append_nil, List.not_mem_nil, if_false, skipTrail,
    ne_eq, not_true_eq_false, umax] at h
  rw [h]
  split_ifs <;> first | rfl | omega

theorem uint4in_digits (a : Abi) {ds : List Char} (hne : ds ≠ []) (hd : AllDigits ds) :
    uint4in a (some ds)
      = if decimalValue ds ≤ 4294967295 then .ok (decimalValue ds)
        else .error .outOfRange := by
  have h := uint4in_numeral a allSpace_nil hne hd [] rfl
  simp only [List.nil_append, List.append_nil, List.not_mem_nil, if_false, skipTrail,
    ne_eq, not_true_eq_false, umax] at h
  rw [h]
  split_ifs <;> first | rfl | omega

theorem uint8in_digits {ds : List Char} (hne : ds ≠ []) (hd : AllDigits ds) :
    uint8in (some ds)
      = if decimalValue ds ≤ 18446744073709551615 then .ok (decimalValue ds)
        else .error .outOfRange := by
  have h := uint8in_numeral allSpace_nil hne hd [] rfl
  simp only [List.nil_append, List.append_nil, List.not_mem_nil, if_false, skipTrail,
    ne_eq, not_true_eq_false, umax] at h
  rw [h]
  split_ifs <;> first | rfl | omega

theorem int1in_signed_digits (a : Abi) {sg ds : List Char} (hsg : IsSign sg) (hne : ds ≠ [])
    (hd : AllDigits ds) :
    int1in a (some (sg ++ ds))
      = if -128 ≤ signedValue sg ds ∧ signedValue sg ds ≤ 127 then .ok (signedValue sg ds)
        else .error .outOfRange := by
  have h := int1in_numeral a allSpace_nil hsg hne hd [] rfl
  simp only [List.nil_append, List.append_nil, skipTrailUntil, garbageBefore,
    Bool.false_eq_true, if_false] at h
  rw [h]
  split_ifs <;> first | rfl | omega

/-! ## Text after the numeral -/

theorem startsDigit_space_then {ws : List Char} {g : Char} (hws : AllSpace ws)
    (hmax : ws = [] → isdigit g = false) (tail : List Char) :
    startsDigit (ws ++ g :: tail) = false := by
  cases ws with
  | nil => exact hmax rfl
  | cons x xs => exact isdigit_of_isspace (hws x (List.mem_cons_self _ _))

theorem skipTrail_space_then {ws : List Char} {g : Char} (hws : AllSpace ws)
    (hg : isspace g = false) (tail : List Char) :
    skipTrail (ws ++ g :: tail) = g :: tail := by
  rw [skipTrail_eq_skipSpace, skipSpace_allSpace_append hws, skipSpace_cons_of_not hg]

theorem skipTrailUntil_allSpace_append (c : Nat) {ws : List Char} (hws : AllSpace ws)
    (hc : ∀ x ∈ ws, x.toNat ≠ c) (r : List Char) :
    skipTrailUntil c (ws ++ r) = skipTrailUntil c r := by
  induction ws with
  | nil => rfl
  | cons x xs ih =>
    have hx : isspace x = true := hws x (List.mem_cons_self _ _)
    have hxc : charIs x c = false := charIs_false_of_ne (hc x (List.mem_cons_self _ _))
    have hxs : AllSpace xs := fun y hy => hws y (List.mem_cons_of_mem _ hy)
    have hcs : ∀ y ∈ xs, y.toNat ≠ c := fun y hy => hc y (List.mem_cons_of_mem _ hy)
    simp [skipTrailUntil, hx, hxc, ih hxs hcs]

theorem skipTrailUntil_cons_of_not (c : Nat) {g : Char} (hg : isspace g = false)
    (tail : List Char) : skipTrailUntil c (g :: tail) = g :: tail := by
  simp [skipTrailUntil, hg]

theorem garbage_space_then {ws : List Char} {g : Char} (hws : AllSpace ws)
    (hg : isspace g = false) (hg0 : g.toNat ≠ 0) (tail : List Char) :
    garbageBefore 0 (skipTrailUntil 0 (ws ++ g :: tail)) = true := by
  have hc : ∀ x ∈ ws, x.toNat ≠ 0 := fun x hx => Nat.pos_iff_ne_zero.mp (isspace_toNat_pos (hws x hx))
  rw [skipTrailUntil_allSpace_append 0 hws hc, skipTrailUntil_cons_of_not 0 hg]
  simp [garbageBefore, charIs_zero, hg0]

/-! ## White space after and before the input -/

theorem skipSpace_append_of_ne_nil {s : List Char} (h : skipSpace s ≠ []) (w : List Char) :
    skipSpace (s ++ w) = skipSpace s ++ w := by
  induction s with
  | nil => exact absurd rfl h
  | cons x xs ih =>
    cases hx : isspace x with
    | true =>
      have h2 : skipSpace xs ≠ [] := by simpa [skipSpace, hx] using h
      simp [skipSpace, hx, ih h2]
    | false => simp [skipSpace, hx]

theorem skipSpace_append_of_nil {s w : List Char} (h : skipSpace s = []) (hw : AllSpace w) :
    skipSpace (s ++ w) = [] := by
  induction s with
  | nil => simpa using skipSpace_allSpace hw
  | cons x xs ih =>
    cases hx : isspace x with
    | true =>
      have h2 : skipSpace xs = [] := by simpa [skipSpace, hx] using h
      simp [skipSpace, hx, ih h2]
    | false => simp [skipSpace, hx] at h

theorem scanDigits_append_right {w : List Char} (hw : startsDigit w = false) (s : List Char)
    (acc : Nat) :
    scanDigits (s ++ w) acc = ((scanDigits s acc).1, (scanDigits s acc).2 ++ w) := by
  induction s generalizing acc with
  | nil =>
    cases w with
    | nil => rfl
    | cons y ys =>
      have hy : isdigit y = false := hw
      simp [scanDigits, hy]
  | cons x xs ih =>
    cases hx : isdigit x with
    | true => simp [scanDigits, hx, ih]
    | false => simp [scanDigits, hx]

theorem digitRun_append {w : List Char} (hw : startsDigit w = false) (neg : Bool)
    (u : List Char) :
    digitRun neg (u ++ w)
      = (digitRun neg u).map (fun r => ⟨r.neg, r.mag, r.endp ++ w⟩) := by
  cases u with
  | nil =>
    cases w with
    | nil => rfl
    | cons y ys =>
      have hy : isdigit y = false := hw
      simp [digitRun, hy]
  | cons x xs =>
    cases hx : isdigit x with
    | true =>
      have h := scanDigits_append_right hw (x :: xs) 0
      simp only [List.cons_append] at h
      simp [digitRun, hx, h]
    | false => simp [digitRun, hx]

theorem scanSign_other {x : Char} (h1 : x ≠ '-') (h2 : x ≠ '+') (xs : List Char) :
    scanSign (x :: xs) = (false, x :: xs) := by
  unfold scanSign
  split
  · rename_i h; cases h; exact absurd rfl h1
  · rename_i h; cases h; exact absurd rfl h2
  · rfl

theorem scanSign_append {t : List Char} (ht : t ≠ []) (w : List Char) :
    scanSign (t ++ w) = ((scanSign t).1, (scanSign t).2 ++ w) := by
  cases t with
  | nil => exact absurd rfl ht
  | cons x xs =>
    by_cases h1 : x = '-'
    · subst h1; rfl
    · by_cases h2 : x = '+'
      · subst h2; rfl
      · rw [List.cons_append, scanSign_other h1 h2, scanSign_other h1 h2]; rfl

/-- White space after the text leaves the subject sequence as it is. -/
theorem subject_append_space {w : List Char} (hw : AllSpace w) (s : List Char) :
    subject (s ++ w) = (subject s).map (fun r => ⟨r.neg, r.mag, r.endp ++ w⟩) := by
  have hsd := startsDigit_of_allSpace hw
  by_cases h : skipSpace s = []
  · simp [subject, h, skipSpace_append_of_nil h hw, scanSign, digitRun]
  · simp only [subject, skipSpace_append_of_ne_nil h, scanSign_append h,
      digitRun_append hsd]

/-- White space before the text leaves the subject sequence as it is. -/
theorem subject_space_append {w : List Char} (hw : AllSpace w) (s : List Char) :
    subject (w ++ s) = subject s := by
  simp only [subject, skipSpace_allSpace_append hw]

theorem strtouBits_append_space (bits : Nat) {w : List Char} (hw : AllSpace w)
    (s : List Char) :
    strtouBits bits (s ++ w)
      = ⟨(strtouBits bits s).val, (strtouBits bits s).endp ++ w,
          (strtouBits bits s).erange⟩ := by
  unfold strtouBits
  rw [subject_append_space hw]
  cases subject s with
  | none => rfl
  | some u =>
    simp only [Option.map_some']
    split_ifs <;> rfl

theorem strtol_append_space (a : Abi) {w : List Char} (hw : AllSpace w) (s : List Char) :
    strtol a (s ++ w)
      = ⟨(strtol a s).val, (strtol a s).endp ++ w, (strtol a s).erange⟩ := by
  unfold strtol
  rw [subject_append_space hw]
  cases subject s with
  | none => rfl
  | some u =>
    simp only [Option.map_some']
    split_ifs <;> rfl

theorem skipTrail_append_space {w : List Char} (hw : AllSpace w) (e : List Char) :
    skipTrail (e ++ w) = [] ↔ skipTrail e = [] := by
  rw [skipTrail_eq_skipSpace, skipTrail_eq_skipSpace]
  by_cases h : skipSpace e = []
  · simp [h, skipSpace_append_of_nil h hw]
  · simp [h, skipSpace_append_of_ne_nil h]

theorem garbage_allSpace (c : Nat) {w : List Char} (hw : AllSpace w) :
    garbageBefore c (skipTrailUntil c w) = false := by
  induction w with
  | nil => rfl
  | cons x xs ih =>
    have hx : isspace x = true := hw x (List.mem_cons_self _ _)
    have hxs : AllSpace xs := fun y hy => hw y (List.mem_cons_of_mem _ hy)
    cases hc : charIs x c with
    | true => simp [skipTrailUntil, garbageBefore, hc]
    | false => simp [skipTrailUntil, hc, hx, ih hxs]

theorem garbage_append_space (c : Nat) {w : List Char} (hw : AllSpace w) (e : List Char) :
    garbageBefore c (skipTrailUntil c (e ++ w)) = garbageBefore c (skipTrailUntil c e) := by
  induction e with
  | nil => simpa [skipTrailUntil, garbageBefore] using garbage_allSpace c hw
  | cons y ys ih =>
    by_cases hc : charIs y c = false ∧ isspace y = true
    · rw [List.cons_append, skipTrailUntil, skipTrailUntil, if_pos hc, if_pos hc]
      exact ih
    · rw [List.cons_append, skipTrailUntil, skipTrailUntil, if_neg hc, if_neg hc]
      rfl

theorem strchr_append_space {w : List Char} (hw : AllSpace w) (s : List Char) :
    (strchr (s ++ w) '-').isSome = (strchr s '-').isSome := by
  rw [Bool.eq_iff_iff, strchr_isSome, strchr_isSome]
  simp [minus_not_mem_of_allSpace hw]

theorem strchr_space_append {w : List Char} (hw : AllSpace w) (s : List Char) :
    (strchr (w ++ s) '-').isSome = (strchr s '-').isSome := by
  rw [Bool.eq_iff_iff, strchr_isSome, strchr_isSome]
  simp [minus_not_mem_of_allSpace hw]

/-- White space after a non-empty input does not change what `pg_atou`
does. -/
theorem pg_atou_append_space (a : Abi) (size : Nat) {s w : List Char} (hs : s ≠ [])
    (hw : AllSpace w) :
    pg_atou a (some (s ++ w)) size = pg_atou a (some s) size := by
  have hne : s ++ w ≠ [] := by simp [hs]
  have hr : atouRange a size (strtoul a (s ++ w)) = atouRange a size (strtoul a s) := by
    rw [strtoul, strtouBits_append_space _ hw]; rfl
  have he : (strtoul a (s ++ w)).endp = (strtoul a s).endp ++ w := by
    rw [strtoul, strtouBits_append_space _ hw]; rfl
  have hv : (strtoul a (s ++ w)).val = (strtoul a s).val := by
    rw [strtoul, strtouBits_append_space _ hw]; rfl
  simp only [pg_atou, hne, hs, if_false, strchr_append_space hw, hr, he, hv, ne_eq,
    skipTrail_append_space hw]

/-- White space after a non-empty input does not change what `uint8in`
does. -/
theorem uint8in_append_space {s w : List Char} (hs : s ≠ []) (hw : AllSpace w) :
    uint8in (some (s ++ w)) = uint8in (some s) := by
  have hne : s ++ w ≠ [] := by simp [hs]
  have hr : (strtoull (s ++ w)).erange = (strtoull s).erange := by
    rw [strtoull, strtouBits_append_space _ hw]; rfl
  have he : (strtoull (s ++ w)).endp = (strtoull s).endp ++ w := by
    rw [strtoull, strtouBits_append_space _ hw]; rfl
  have hv : (strtoull (s ++ w)).val = (strtoull s).val := by
    rw [strtoull, strtouBits_append_space _ hw]; rfl
  simp only [uint8in, hne, hs, if_false, strchr_append_space hw, hr, he, hv, ne_eq,
    skipTrail_append_space hw]

/-- White space after a non-empty input does not change what `pg_atoi`
does. -/
theorem pg_atoi_append_space (a : Abi) (size c : Nat) {s w : List Char} (hs : s ≠ [])
    (hw : AllSpace w) :
    pg_atoi a (some (s ++ w)) size c = pg_atoi a (some s) size c := by
  have hne : s ++ w ≠ [] := by simp [hs]
  have hr : atoiRange a size (strtol a (s ++ w)) = atoiRange a size (strtol a s) := by
    rw [strtol_append_space a hw]; rfl
  have he : (strtol a (s ++ w)).endp = (strtol a s).endp ++ w := by
    rw [strtol_append_space a hw]
  have hv : (strtol a (s ++ w)).val = (strtol a s).val := by
    rw [strtol_append_space a hw]
  have hl : ((strtol a s).endp ++ w).length = (s ++ w).length
      ↔ (strtol a s).endp.length = s.length := by
    simp only [List.length_append]; omega
  simp only [pg_atoi, hne, hs, if_false, hr, he, hv, hl, garbage_append_space c hw]

theorem strtouBits_space_append (bits : Nat) {w : List Char} (hw : AllSpace w)
    (s : List Char) :
    (strtouBits bits (w ++ s)).val = (strtouBits bits s).val
    ∧ (strtouBits bits (w ++ s)).erange = (strtouBits bits s).erange
    ∧ skipTrail (strtouBits bits (w ++ s)).endp = skipTrail (strtouBits bits s).endp := by
  unfold strtouBits
  rw [subject_space_append hw]
  cases subject s with
  | none =>
    refine ⟨rfl, rfl, ?_⟩
    simp only [skipTrail_eq_skipSpace, skipSpace_allSpace_append hw]
  | some u => exact ⟨rfl, rfl, rfl⟩

theorem atouRange_congr (a : Abi) (size : Nat) {r t : Conv Nat} (hv : r.val = t.val)
    (he : r.erange = t.erange) : atouRange a size r = atouRange a size t := by
  unfold atouRange
  rw [hv, he]

/-- White space before a non-empty input does not change what `pg_atou`
does. -/
theorem pg_atou_space_append (a : Abi) (size : Nat) {s w : List Char} (hs : s ≠ [])
    (hw : AllSpace w) :
    pg_atou a (some (w ++ s)) size = pg_atou a (some s) size := by
  have hne : w ++ s ≠ [] := by simp [hs]
  obtain ⟨hv, he, hk⟩ := strtouBits_space_append a.longBits hw s
  have hr : atouRange a size (strtoul a (w ++ s)) = atouRange a size (strtoul a s) :=
    atouRange_congr a size hv he
  have hv2 : (strtoul a (w ++ s)).val = (strtoul a s).val := hv
  have hk2 : skipTrail (strtoul a (w ++ s)).endp = skipTrail (strtoul a s).endp := hk
  simp only [pg_atou, hne, hs, if_false, strchr_space_append hw, hr, hv2, hk2]

/-- White space before a non-empty input does not change what `uint8in`
does. -/
theorem uint8in_space_append {s w : List Char} (hs : s ≠ []) (hw : AllSpace w) :
    uint8in (some (w ++ s)) = uint8in (some s) := by
  have hne : w ++ s ≠ [] := by simp [hs]
  obtain ⟨hv, he, hk⟩ := strtouBits_space_append 64 hw s
  have he2 : (strtoull (w ++ s)).erange = (strtoull s).erange := he
  have hv2 : (strtoull (w ++ s)).val = (strtoull s).val := hv
  have hk2 : skipTrail (strtoull (w ++ s)).endp = skipTrail (strtoull s).endp := hk
  simp only [uint8in, hne, hs, if_false, strchr_space_append hw, he2, hv2, hk2]

theorem pg_atou_nil (a : Abi) (size : Nat) :
    pg_atou a (some []) size = .error .invalidSyntax := rfl

theorem pg_atoi_nil (a : Abi) (size c : Nat) :
    pg_atoi a (some []) size c = .error .invalidSyntax := rfl

theorem uint8in_nil : uint8in (some []) = .error .invalidSyntax := rfl

theorem ne_nil_of_map_ok {α β : Type} {f : List Char → Except Err α} {g : α → β}
    (hnil : f [] = .error .invalidSyntax) {s : List Char} {v : β}
    (h : (f s).map g = .ok v) : s ≠ [] := by
  rintro rfl
  rw [hnil] at h
  cases h

/-! ## The subject sequence of an arbitrary input -/

theorem scanDigits_length_le (xs : List Char) (acc : Nat) :
    (scanDigits xs acc).2.length ≤ xs.length := by
  induction xs generalizing acc with
  | nil => simp [scanDigits]
  | cons x xs ih =>
    cases hx : isdigit x with
    | true =>
      have := ih (acc * 10 + digitVal x)
      simp only [scanDigits, hx, if_true, List.length_cons]
      omega
    | false => simp [scanDigits, hx]

theorem digitRun_endp_lt {neg : Bool} {u : List Char} {r : Subject}
    (h : digitRun neg u = some r) : r.endp.length < u.length := by
  cases u with
  | nil => simp [digitRun] at h
  | cons x xs =>
    cases hx : isdigit x with
    | false => simp [digitRun, hx] at h
    | true =>
      simp only [digitRun, hx, if_true, Option.some.injEq] at h
      subst h
      have := scanDigits_length_le xs (0 * 10 + digitVal x)
      simp only [scanDigits, hx, if_true, List.length_cons]
      omega

theorem digitRun_neg {neg : Bool} {u : List Char} {r : Subject}
    (h : digitRun neg u = some r) : r.neg = neg := by
  cases u with
  | nil => simp [digitRun] at h
  | cons x xs =>
    cases hx : isdigit x with
    | false => simp [digitRun, hx] at h
    | true =>
      simp only [digitRun, hx, if_true, Option.some.injEq] at h
      subst h
      rfl

theorem skipSpace_length_le (s : List Char) : (skipSpace s).length ≤ s.length := by
  induction s with
  | nil => simp [skipSpace]
  | cons x xs ih =>
    cases hx : isspace x with
    | true => simp only [skipSpace, hx, if_true, List.length_cons]; omega
    | false => simp [skipSpace, hx]

theorem skipSpace_subset (s : List Char) : ∀ c ∈ skipSpace s, c ∈ s := by
  induction s with
  | nil => simp [skipSpace]
  | cons x xs ih =>
    intro c hc
    cases hx : isspace x with
    | true =>
      simp only [skipSpace, hx, if_true] at hc
      exact List.mem_cons_of_mem _ (ih c hc)
    | false =>
      simpa [skipSpace, hx] using hc

theorem scanSign_length_le (t : List Char) : (scanSign t).2.length ≤ t.length := by
  cases t with
  | nil => simp [scanSign]
  | cons x xs =>
    by_cases h1 : x = '-'
    · subst h1; simp [scanSign]
    · by_cases h2 : x = '+'
      · subst h2; simp [scanSign]
      · rw [scanSign_other h1 h2]

theorem scanSign_neg_mem {t : List Char} (h : (scanSign t).1 = true) : '-' ∈ t := by
  cases t with
  | nil => simp [scanSign] at h
  | cons x xs =>
    by_cases h1 : x = '-'
    · subst h1; exact List.mem_cons_self _ _
    · by_cases h2 : x = '+'
      · subst h2; simp [scanSign] at h
      · rw [scanSign_other h1 h2] at h; cases h

/-- The end pointer of a conversion that was performed lies after the start
of the string. -/
theorem subject_endp_lt {s : List Char} {u : Subject} (h : subject s = some u) :
    u.endp.length < s.length := by
  have h1 := digitRun_endp_lt h
  have h2 := scanSign_length_le (skipSpace s)
  have h3 := skipSpace_length_le s
  omega

/-- A subject sequence is negative only when the string holds a `-`. -/
theorem subject_neg_false {s : List Char} {u : Subject} (h : subject s = some u)
    (hm : '-' ∉ s) : u.neg = false := by
  have h1 : u.neg = (scanSign (skipSpace s)).1 := digitRun_neg h
  cases hn : u.neg with
  | false => rfl
  | true =>
    rw [hn] at h1
    exact absurd (skipSpace_subset s _ (scanSign_neg_mem h1.symm)) hm

theorem skipTrailUntil_zero (e : List Char) : skipTrailUntil 0 e = skipSpace e := by
  induction e with
  | nil => rfl
  | cons x xs ih =>
    cases hx : isspace x with
    | true =>
      have := Nat.pos_iff_ne_zero.mp (isspace_toNat_pos hx)
      simp [skipTrailUntil, skipSpace, hx, charIs_zero, this, ih]
    | false => simp [skipTrailUntil, skipSpace, hx]

theorem skipSpace_eq_nil_iff (e : List Char) : skipSpace e = [] ↔ AllSpace e := by
  constructor
  · intro h
    induction e with
    | nil => exact allSpace_nil
    | cons x xs ih =>
      cases hx : isspace x with
      | true =>
        have h2 : skipSpace xs = [] := by simpa [skipSpace, hx] using h
        intro c hc
        rcases List.mem_cons.mp hc with rfl | hc
        · exact hx
        · exact ih h2 c hc
      | false => simp [skipSpace, hx] at h
  · exact skipSpace_allSpace

/-! ## The decoders in terms of the subject sequence -/

theorem strchr_isSome_false {s : List Char} {c : Char} (h : c ∉ s) :
    (strchr s c).isSome = false := by
  cases hc : (strchr s c).isSome with
  | false => rfl
  | true => exact absurd ((strchr_isSome s c).mp hc) h

theorem strtouBits_of_subject (bits : Nat) {s : List Char} {u : Subject}
    (h : subject s = some u) (hn : u.neg = false) :
    strtouBits bits s
      = if u.mag > 2 ^ bits - 1 then ⟨2 ^ bits - 1, u.endp, true⟩
        else ⟨u.mag, u.endp, false⟩ := by
  simp [strtouBits, h, hn]

/-- What `pg_atou` does when a conversion is performed. -/
theorem pg_atou_of_subject (a : Abi) {size : Nat} (hs : size = 1 ∨ size = 2 ∨ size = 4)
    {s : List Char} {u : Subject} (hm : '-' ∉ s) (h : subject s = some u) :
    pg_atou a (some s) size
      = if u.mag > umax size then .error .outOfRange
        else if skipSpace u.endp ≠ [] then .error .invalidSyntax
        else .ok u.mag := by
  have hne : s ≠ [] := by
    rintro rfl
    have := subject_endp_lt h
    simp at this
  have hn := subject_neg_false h hm
  unfold pg_atou
  simp only [hne, if_false, strchr_isSome_false hm, Bool.false_eq_true, strtoul,
    strtouBits_of_subject a.longBits h hn, atouRange_conv a hs]
  by_cases hgt : u.mag > umax size
  · simp [hgt]
  · have hle : umax size ≤ 2 ^ a.longBits - 1 := by
      rcases hs with rfl | rfl | rfl <;> cases a <;> simp [umax, Abi.longBits]
    have hlt : umax size < 2 ^ 32 := by
      rcases hs with rfl | rfl | rfl <;> simp [umax]
    have hng : ¬ u.mag > 2 ^ a.longBits - 1 := by omega
    have hm32 : u.mag < 2 ^ 32 := by omega
    simp only [hgt, decide_False, hng, if_false, toUnsigned, Nat.mod_eq_of_lt hm32,
      skipTrail_eq_skipSpace]

/-- What `pg_atou` does when no conversion is performed: the whole input is
scanned as trailing text. -/
theorem pg_atou_of_no_subject (a : Abi) {size : Nat} (hs : size = 1 ∨ size = 2 ∨ size = 4)
    {s : List Char} (hne : s ≠ []) (hm : '-' ∉ s) (h : subject s = none) :
    pg_atou a (some s) size
      = if skipSpace s ≠ [] then .error .invalidSyntax else .ok 0 := by
  have hr : atouRange a size ⟨0, s, false⟩ = .ok false := by
    rcases hs with rfl | rfl | rfl <;> cases a <;>
      simp [atouRange, HAVE_LONG_INT_64, UINT_MAX, USHRT_MAX, UCHAR_MAX]
  unfold pg_atou
  simp only [hne, if_false, strchr_isSome_false hm, Bool.false_eq_true, strtoul,
    strtouBits, h, hr, skipTrail_eq_skipSpace, toUnsigned, Nat.zero_mod]

/-- What `uint8in` does when a conversion is performed. -/
theorem uint8in_of_subject {s : List Char} {u : Subject} (hm : '-' ∉ s)
    (h : subject s = some u) :
    uint8in (some s)
      = if u.mag > umax 8 then .error .outOfRange
        else if skipSpace u.endp ≠ [] then .error .invalidSyntax
        else .ok u.mag := by
  have hne : s ≠ [] := by
    rintro rfl
    have := subject_endp_lt h
    simp at this
  have hn := subject_neg_false h hm
  unfold uint8in
  simp only [hne, if_false, strchr_isSome_false hm, Bool.false_eq_true, strtoull,
    strtouBits_of_subject 64 h hn]
  by_cases hgt : u.mag > umax 8
  · have hgt2 : u.mag > 2 ^ 64 - 1 := by simpa [umax] using hgt
    rw [if_pos hgt2, if_pos hgt]; rfl
  · have hng : ¬ u.mag > 2 ^ 64 - 1 := by simpa [umax] using hgt
    have hlt : u.mag < 2 ^ 64 := by omega
    rw [if_neg hng, if_neg hgt]
    simp only [if_false, PG_RETURN_UINT64, toUnsigned, Nat.mod_eq_of_lt hlt,
      Bool.false_eq_true, skipTrail_eq_skipSpace]

/-- What `uint8in` does when no conversion is performed. -/
theorem uint8in_of_no_subject {s : List Char} (hne : s ≠ []) (hm : '-' ∉ s)
    (h : subject s = none) :
    uint8in (some s) = if skipSpace s ≠ [] then .error .invalidSyntax else .ok 0 := by
  unfold uint8in
  simp only [hne, if_false, strchr_isSome_false hm, Bool.false_eq_true, strtoull,
    strtouBits, h, skipTrail_eq_skipSpace, PG_RETURN_UINT64, toUnsigned, Nat.zero_mod]

theorem strtol_of_subject (a : Abi) {s : List Char} {u : Subject} (h : subject s = some u) :
    strtol a s
      = if u.value > LONG_MAX a then ⟨LONG_MAX a, u.endp, true⟩
        else if u.value < LONG_MIN a then ⟨LONG_MIN a, u.endp, true⟩
        else ⟨u.value, u.endp, false⟩ := by
  simp only [strtol, h, Subject.value]

/-- What `pg_atoi` does when a conversion is performed. -/
theorem pg_atoi_of_subject (a : Abi) {size : Nat} (hs : size = 1 ∨ size = 2 ∨ size = 4)
    (c : Nat) {s : List Char} {u : Subject} (h : subject s = some u) :
    pg_atoi a (some s) size c
      = if u.value < smin size ∨ u.value > smax size then .error .outOfRange
        else if garbageBefore c (skipTrailUntil c u.endp) = true then .error .invalidSyntax
        else .ok u.value := by
  have hlt := subject_endp_lt h
  have hnil : s ≠ [] := by
    rintro rfl
    simp at hlt
  have hconv := strtol_of_subject a h
  have hendp : (strtol a s).endp = u.endp := by
    rw [hconv]; split_ifs <;> rfl
  have hrng : atoiRange a size (strtol a s)
      = if u.value < smin size ∨ u.value > smax size then some .outOfRange else none := by
    rw [hconv]; exact atoiRange_conv a hs _ u.endp
  have hval : ¬ (u.value < smin size ∨ u.value > smax size) →
      (strtol a s).val = u.value := by
    intro hin
    rw [hconv]
    have h1 : ¬ u.value > LONG_MAX a := by
      rcases hs with rfl | rfl | rfl <;> cases a <;>
        simp only [smin, smax, LONG_MAX, Abi.longBits] at * <;> norm_num at * <;> omega
    have h2 : ¬ u.value < LONG_MIN a := by
      rcases hs with rfl | rfl | rfl <;> cases a <;>
        simp only [smin, smax, LONG_MIN, Abi.longBits] at * <;> norm_num at * <;> omega
    rw [if_neg h1, if_neg h2]
  have hlen : ¬ u.endp.length = s.length := by omega
  unfold pg_atoi
  simp only [hnil, if_false, hendp, hlen, hrng]
  by_cases hin : u.value < smin size ∨ u.value > smax size
  · simp only [hin, if_true]
  · simp only [hin, if_false, hval hin, toSigned32_of_range hs hin]

/-- What `pg_atoi` does when no conversion is performed. -/
theorem pg_atoi_of_no_subject (a : Abi) (size c : Nat) {s : List Char}
    (h : subject s = none) : pg_atoi a (some s) size c = .error .invalidSyntax := by
  unfold pg_atoi
  by_cases hnil : s = []
  · simp [hnil]
  · simp [hnil, strtol, h]

theorem map_outcome {α β : Type} (f : α → β) (A B : Prop) [Decidable A] [Decidable B]
    (v : α) :
    (if A then (.error .outOfRange : Except Err α)
      else if B then .error .invalidSyntax else .ok v).map f
      = if A then .error .outOfRange else if B then .error .invalidSyntax else .ok (f v) := by
  split_ifs <;> rfl

theorem map_no_subject {β : Type} (f : Nat → β) (B : Prop) [Decidable B] :
    (if B then (.error .invalidSyntax : Except Err Nat) else .ok 0).map f
      = if B then .error .invalidSyntax else .ok (f 0) := by
  split_ifs <;> rfl

theorem uint1in_of_subject (a : Abi) {s : List Char} {u : Subject} (hm : '-' ∉ s)
    (h : subject s = some u) :
    uint1in a (some s)
      = if u.mag > 255 then .error .outOfRange
        else if skipSpace u.endp ≠ [] then .error .invalidSyntax
        else .ok u.mag := by
  rw [uint1in, pg_atou_of_subject a (Or.inl rfl) hm h, map_outcome]
  have e : umax 1 = 255 := by simp [umax]
  rw [e]
  split_ifs with h1 h2
  · rfl
  · rfl
  · have : u.mag < 256 := by omega
    simp [PG_RETURN_UINT8, toUnsigned, Nat.mod_eq_of_lt this]

theorem uint2in_of_subject (a : Abi) {s : List Char} {u : Subject} (hm : '-' ∉ s)
    (h : subject s = some u) :
    uint2in a (some s)
      = if u.mag > 65535 then .error .outOfRange
        else if skipSpace u.endp ≠ [] then .error .invalidSyntax
        else .ok u.mag := by
  rw [uint2in, pg_atou_of_subject a (Or.inr (Or.inl rfl)) hm h, map_outcome]
  have e : umax 2 = 65535 := by simp [umax]
  rw [e]
  split_ifs with h1 h2
  · rfl
  · rfl
  · have : u.mag < 65536 := by omega
    simp [PG_RETURN_UINT16, toUnsigned, Nat.mod_eq_of_lt this]

theorem uint4in_of_subject (a : Abi) {s : List Char} {u : Subject} (hm : '-' ∉ s)
    (h : subject s = some u) :
    uint4in a (some s)
      = if u.mag > 4294967295 then .error .outOfRange
        else if skipSpace u.endp ≠ [] then .error .invalidSyntax
        else .ok u.mag := by
  rw [uint4in, pg_atou_of_subject a (Or.inr (Or.inr rfl)) hm h, map_outcome]
  have e : umax 4 = 4294967295 := by simp [umax]
  rw [e]
  split_ifs with h1 h2
  · rfl
  · rfl
  · have : u.mag < 4294967296 := by omega
    simp [PG_RETURN_UINT32, toUnsigned, Nat.mod_eq_of_lt this]

theorem uint8in_of_subject_lit {s : List Char} {u : Subject} (hm : '-' ∉ s)
    (h : subject s = some u) :
    uint8in (some s)
      = if u.mag > 18446744073709551615 then .error .outOfRange
        else if skipSpace u.endp ≠ [] then .error .invalidSyntax
        else .ok u.mag := by
  rw [uint8in_of_subject hm h]
  have e : umax 8 = 18446744073709551615 := by simp [umax]
  rw [e]

theorem uint1in_of_no_subject (a : Abi) {s : List Char} (hne : s ≠ []) (hm : '-' ∉ s)
    (h : subject s = none) :
    uint1in a (some s) = if skipSpace s ≠ [] then .error .invalidSyntax else .ok 0 := by
  rw [uint1in, pg_atou_of_no_subject a (Or.inl rfl) hne hm h, map_no_subject]; rfl

theorem uint2in_of_no_subject (a : Abi) {s : List Char} (hne : s ≠ []) (hm : '-' ∉ s)
    (h : subject s = none) :
    uint2in a (some s) = if skipSpace s ≠ [] then .error .invalidSyntax else .ok 0 := by
  rw [uint2in, pg_atou_of_no_subject a (Or.inr (Or.inl rfl)) hne hm h, map_no_subject]; rfl

theorem uint4in_of_no_subject (a : Abi) {s : List Char} (hne : s ≠ []) (hm : '-' ∉ s)
    (h : subject s = none) :
    uint4in a (some s) = if skipSpace s ≠ [] then .error .invalidSyntax else .ok 0 := by
  rw [uint4in, pg_atou_of_no_subject a (Or.inr (Or.inr rfl)) hne hm h, map_no_subject]; rfl

theorem int1in_of_subject (a : Abi) {s : List Char} {u : Subject} (h : subject s = some u) :
    int1in a (some s)
      = if u.value < -128 ∨ u.value > 127 then .error .outOfRange
        else if garbageBefore 0 (skipSpace u.endp) = true then .error .invalidSyntax
        else .ok u.value := by
  rw [int1in, pg_atoi_of_subject a (Or.inl rfl) 0 h, skipTrailUntil_zero, map_outcome]
  have e1 : smin 1 = -128 := by simp [smin]
  have e2 : smax 1 = 127 := by simp [smax]
  rw [e1, e2]
  split_ifs with h1 h2
  · rfl
  · rfl
  · have : toSigned 8 u.value = u.value := by
      simp only [toSigned]; norm_num; omega
    simp [PG_RETURN_INT8, this]

theorem int1in_of_no_subject (a : Abi) {s : List Char} (h : subject s = none) :
    int1in a (some s) = .error .invalidSyntax := by
  rw [int1in, pg_atoi_of_no_subject a 1 0 h]; rfl

/-- White space before an input on which a conversion is performed does not
change what `pg_atoi` does. -/
theorem pg_atoi_space_append (a : Abi) {size : Nat} (hs : size = 1 ∨ size = 2 ∨ size = 4)
    (c : Nat) {w s : List Char} {u : Subject} (hw : AllSpace w) (h : subject s = some u) :
    pg_atoi a (some (w ++ s)) size c = pg_atoi a (some s) size c := by
  have h2 : subject (w ++ s) = some u := by rw [subject_space_append hw, h]
  rw [pg_atoi_of_subject a hs c h, pg_atoi_of_subject a hs c h2]

theorem decimalValue_zeros (k : Nat) (d : List Char) :
    decimalValue (List.replicate k '0' ++ d) = decimalValue d := by
  have hz : ∀ k, List.foldl (fun n c => 10 * n + digitVal c) 0 (List.replicate k '0') = 0 := by
    intro k
    induction k with
    | zero => rfl
    | succ k ih =>
      rw [List.replicate_succ, List.foldl_cons]
      simpa [digitVal] using ih
  simp only [decimalValue, List.foldl_append, hz]

theorem allDigits_zeros_append {d : List Char} (hd : AllDigits d) (k : Nat) :
    AllDigits (List.replicate k '0' ++ d) := by
  intro c hc
  rcases List.mem_append.mp hc with hc | hc
  · have : c = '0' := (List.mem_replicate.mp hc).2
    subst this
    decide
  · exact hd c hc

/-! ## The form and the length of the encoders' output -/

theorem digitChar_ne_zero {d : Nat} (h0 : 0 < d) (h : d < 10) : digitChar d ≠ '0' := by
  interval_cases d <;> decide

theorem utoaAux_head {fuel n : Nat} (h0 : 0 < n) (h : n < fuel) :
    (utoaAux fuel n []).head? ≠ some '0' := by
  induction fuel generalizing n with
  | zero => omega
  | succ f ih =>
    unfold utoaAux
    split_ifs with h10
    · simpa using digitChar_ne_zero h0 h10
    · have hlt : n / 10 < f := by omega
      have hpos : 0 < n / 10 := by omega
      rw [utoaAux_acc, List.head?_append_of_ne_nil _ (utoaAux_ne_nil _ (by omega))]
      exact ih hpos hlt

theorem sprintf_u_canonical (n : Nat) : Canonical (sprintf_u n) := by
  refine ⟨sprintf_u_ne_nil n, sprintf_u_allDigits n, ?_⟩
  intro hh
  rcases Nat.eq_zero_or_pos n with h0 | h0
  · subst h0; rfl
  · exact absurd hh (utoaAux_head h0 (Nat.lt_succ_self n))

theorem utoaAux_length {fuel n k : Nat} (h : n < fuel) (hk : n < 10 ^ k) (hk0 : 0 < k) :
    (utoaAux fuel n []).length ≤ k := by
  induction fuel generalizing n k with
  | zero => omega
  | succ f ih =>
    unfold utoaAux
    split_ifs with h10
    · simpa using hk0
    · have hlt : n / 10 < f := by omega
      cases k with
      | zero => omega
      | succ k =>
        have hk2 : n / 10 < 10 ^ k := by
          rw [Nat.pow_succ] at hk
          exact Nat.div_lt_of_lt_mul (by omega)
        have hk3 : 0 < k := by
          rcases Nat.eq_zero_or_pos k with hz | hz
          · subst hz; simp at hk; omega
          · exact hz
        have := ih hlt hk2 hk3
        rw [utoaAux_acc, List.length_append, List.length_singleton]
        omega

theorem sprintf_u_length {n k : Nat} (hk : n < 10 ^ k) (hk0 : 0 < k) :
    (sprintf_u n).length ≤ k :=
  utoaAux_length (Nat.lt_succ_self n) hk hk0

theorem sprintf_d_length {v : Int} {k : Nat} (hk : v.natAbs < 10 ^ k) (hk0 : 0 < k) :
    (sprintf_d v).length ≤ k + 1 := by
  have := sprintf_u_length hk hk0
  unfold sprintf_d
  split_ifs
  · simp only [List.length_cons]; omega
  · omega

theorem toSigned8_range (d : Int) : -128 ≤ toSigned 8 d ∧ toSigned 8 d ≤ 127 := by
  simp only [toSigned]; norm_num; omega

theorem not_plus_not_space_of_allDigits {ds : List Char} (hd : AllDigits ds) :
    ∀ c ∈ ds, c ≠ '+' ∧ isspace c = false :=
  fun c hc => ⟨ne_plus_of_isdigit (hd c hc), isspace_of_isdigit (hd c hc)⟩

/-! ## The unsigned decoders as one function of the largest value -/

theorem pg_atou_minus (a : Abi) (size : Nat) {s : List Char} (h : '-' ∈ s) :
    pg_atou a (some s) size = .error .invalidSyntax := by
  have hne : s ≠ [] := List.ne_nil_of_mem h
  have hchr : (strchr s '-').isSome = true := (strchr_isSome s '-').mpr h
  simp [pg_atou, hne, hchr]

theorem uint8in_minus {s : List Char} (h : '-' ∈ s) :
    uint8in (some s) = .error .invalidSyntax := by
  have hne : s ≠ [] := List.ne_nil_of_mem h
  have hchr : (strchr s '-').isSome = true := (strchr_isSome s '-').mpr h
  simp [uint8in, hne, hchr]

theorem uint1in_eq (a : Abi) (s : List Char) : uint1in a (some s) = unsignedResult 255 s := by
  unfold unsignedResult
  by_cases hne : s = []
  · subst hne; rfl
  · by_cases hm : '-' ∈ s
    · rw [if_neg hne, if_pos hm, uint1in, pg_atou_minus a 1 hm]; rfl
    · rw [if_neg hne, if_neg hm]
      cases hsub : subject s with
      | none => exact uint1in_of_no_subject a hne hm hsub
      | some u => exact uint1in_of_subject a hm hsub

theorem uint2in_eq (a : Abi) (s : List Char) :
    uint2in a (some s) = unsignedResult 65535 s := by
  unfold unsignedResult
  by_cases hne : s = []
  · subst hne; rfl
  · by_cases hm : '-' ∈ s
    · rw [if_neg hne, if_pos hm, uint2in, pg_atou_minus a 2 hm]; rfl
    · rw [if_neg hne, if_neg hm]
      cases hsub : subject s with
      | none => exact uint2in_of_no_subject a hne hm hsub
      | some u => exact uint2in_of_subject a hm hsub

theorem uint4in_eq (a : Abi) (s : List Char) :
    uint4in a (some s) = unsignedResult 4294967295 s := by
  unfold unsignedResult
  by_cases hne : s = []
  · subst hne; rfl
  · by_cases hm : '-' ∈ s
    · rw [if_neg hne, if_pos hm, uint4in, pg_atou_minus a 4 hm]; rfl
    · rw [if_neg hne, if_neg hm]
      cases hsub : subject s with
      | none => exact uint4in_of_no_subject a hne hm hsub
      | some u => exact uint4in_of_subject a hm hsub

theorem uint8in_eq (s : List Char) :
    uint8in (some s) = unsignedResult 18446744073709551615 s := by
  unfold unsignedResult
  by_cases hne : s = []
  · subst hne; rfl
  · by_cases hm : '-' ∈ s
    · rw [if_neg hne, if_pos hm, uint8in_minus hm]
    · rw [if_neg hne, if_neg hm]
      cases hsub : subject s with
      | none => exact uint8in_of_no_subject hne hm hsub
      | some u => exact uint8in_of_subject_lit hm hsub

/-- A value accepted under a maximum is accepted, with the same value, under
any larger maximum. -/
theorem unsignedResult_mono {m n : Nat} (hmn : m ≤ n) {s : List Char} {v : Nat}
    (h : unsignedResult m s = .ok v) : unsignedResult n s = .ok v := by
  unfold unsignedResult at h ⊢
  by_cases hne : s = []
  · rw [if_pos hne] at h; cases h
  · rw [if_neg hne] at h ⊢
    by_cases hm : '-' ∈ s
    · rw [if_pos hm] at h; cases h
    · rw [if_neg hm] at h ⊢
      cases hsub : subject s with
      | none => rw [hsub] at h; exact h
      | some u =>
        rw [hsub] at h
        simp only at h ⊢
        by_cases hgt : u.mag > m
        · rw [if_pos hgt] at h; cases h
        · rw [if_neg hgt] at h
          by_cases hsk : skipSpace u.endp ≠ []
          · rw [if_pos hsk] at h; cases h
          · rw [if_neg hsk] at h
            have hv : u.mag = v := by injection h
            have hgn : ¬ u.mag > n := by omega
            rw [if_neg hgn, if_neg hsk, hv]

/-- An error of an unsigned decoder is the error of the first stage that
fails. -/
theorem unsignedResult_error {m : Nat} {s : List Char} {e : Err}
    (h : unsignedResult m s = .error e) : firstFailure true 0 m s = some e := by
  unfold unsignedResult at h
  unfold firstFailure
  by_cases hne : s = []
  · rw [if_pos hne] at h ⊢
    injection h with h; rw [h]
  · rw [if_neg hne] at h ⊢
    by_cases hm : '-' ∈ s
    · rw [if_pos hm] at h
      rw [if_pos ⟨rfl, hm⟩]
      injection h with h; rw [h]
    · rw [if_neg hm] at h
      have hm2 : ¬ (true = true ∧ '-' ∈ s) := fun hh => hm hh.2
      rw [if_neg hm2]
      cases hsub : subject s with
      | none =>
        rw [hsub] at h
        simp only at h ⊢
        by_cases hsk : skipSpace s ≠ []
        · rw [if_pos hsk] at h
          injection h with h; rw [h]
        · rw [if_neg hsk] at h; cases h
      | some u =>
        rw [hsub] at h
        simp only at h ⊢
        have hn := subject_neg_false hsub hm
        have hv : u.value = (u.mag : Int) := by simp [Subject.value, hn]
        by_cases hgt : u.mag > m
        · rw [if_pos hgt] at h
          have : u.value < 0 ∨ (m : Int) < u.value := by rw [hv]; omega
          rw [if_pos this]
          injection h with h; rw [h]
        · rw [if_neg hgt] at h
          have : ¬ (u.value < 0 ∨ (m : Int) < u.value) := by rw [hv]; omega
          rw [if_neg this]
          by_cases hsk : skipSpace u.endp ≠ []
          · rw [if_pos hsk] at h ⊢
            injection h with h; rw [h]
          · rw [if_neg hsk] at h; cases h

/-- An error of `int1in` is the error of the first stage that fails. -/
theorem int1in_error (a : Abi) {s : List Char} {e : Err}
    (h : int1in a (some s) = .error e) : firstFailure false (-128) 127 s = some e := by
  unfold firstFailure
  by_cases hne : s = []
  · subst hne
    rw [if_pos rfl]
    have : int1in a (some []) = .error .invalidSyntax := rfl
    rw [this] at h
    injection h with h; rw [h]
  · have hm2 : ¬ (false = true ∧ '-' ∈ s) := fun hh => Bool.noConfusion hh.1
    rw [if_neg hne, if_neg hm2]
    cases hsub : subject s with
    | none =>
      rw [int1in_of_no_subject a hsub] at h
      injection h with h; rw [h]
    | some u =>
      rw [int1in_of_subject a hsub] at h
      simp only
      by_cases hr : u.value < -128 ∨ u.value > 127
      · rw [if_pos hr] at h
        have : u.value < -128 ∨ 127 < u.value := hr
        rw [if_pos this]
        injection h with h; rw [h]
      · rw [if_neg hr] at h
        have : ¬ (u.value < -128 ∨ 127 < u.value) := hr
        rw [if_neg this]
        by_cases hg : garbageBefore 0 (skipSpace u.endp) = true
        · rw [if_pos hg] at h
          have hsk : skipSpace u.endp ≠ [] := by
            intro hnil
            rw [hnil] at hg
            cases hg
          rw [if_pos hsk]
          injection h with h; rw [h]
        · rw [if_neg hg] at h; cases h

/-! ## The terminator of `pg_atoi` -/

theorem toNat_ne_of_ne {x c : Char} (h : x ≠ c) : x.toNat ≠ c.toNat := by
  intro he
  apply h
  rw [← Char.ofNat_toNat x, ← Char.ofNat_toNat c, he]

theorem scanDigits_subset (xs : List Char) (acc : Nat) :
    ∀ c ∈ (scanDigits xs acc).2, c ∈ xs := by
  induction xs generalizing acc with
  | nil => simp [scanDigits]
  | cons x xs ih =>
    intro c hc
    cases hx : isdigit x with
    | true =>
      simp only [scanDigits, hx, if_true] at hc
      exact List.mem_cons_of_mem _ (ih _ c hc)
    | false => simpa [scanDigits, hx] using hc

theorem scanSign_subset (t : List Char) : ∀ c ∈ (scanSign t).2, c ∈ t := by
  cases t with
  | nil => simp [scanSign]
  | cons x xs =>
    intro c hc
    by_cases h1 : x = '-'
    · subst h1; exact List.mem_cons_of_mem _ (by simpa [scanSign] using hc)
    · by_cases h2 : x = '+'
      · subst h2; exact List.mem_cons_of_mem _ (by simpa [scanSign] using hc)
      · rw [scanSign_other h1 h2] at hc; exact hc

theorem digitRun_subset {neg : Bool} {u : List Char} {r : Subject}
    (h : digitRun neg u = some r) : ∀ c ∈ r.endp, c ∈ u := by
  cases u with
  | nil => simp [digitRun] at h
  | cons x xs =>
    cases hx : isdigit x with
    | false => simp [digitRun, hx] at h
    | true =>
      simp only [digitRun, hx, if_true, Option.some.injEq] at h
      subst h
      exact scanDigits_subset (x :: xs) 0

/-- The end pointer points into the string. -/
theorem subject_endp_subset {s : List Char} {u : Subject} (h : subject s = some u) :
    ∀ c ∈ u.endp, c ∈ s := fun c hc =>
  skipSpace_subset s c (scanSign_subset _ c (digitRun_subset h c hc))

theorem garbage_zero_iff {e : List Char} (h0 : ∀ x ∈ e, x.toNat ≠ 0) :
    garbageBefore 0 (skipTrailUntil 0 e) = false ↔ AllSpace e := by
  rw [skipTrailUntil_zero, ← skipSpace_eq_nil_iff]
  constructor
  · intro hg
    cases hsk : skipSpace e with
    | nil => rfl
    | cons y ys =>
      rw [hsk] at hg
      have hy : y ∈ e := skipSpace_subset e y (by rw [hsk]; exact List.mem_cons_self _ _)
      simp [garbageBefore, charIs_zero, h0 y hy] at hg
  · intro hnil
    rw [hnil]; rfl

theorem digitChar_digitVal {c : Char} (h : isdigit c = true) : digitChar (digitVal c) = c := by
  have hr := isdigit_iff.mp h
  have hc : c = Char.ofNat c.toNat := (Char.ofNat_toNat c).symm
  unfold digitVal
  generalize c.toNat = n at hr hc
  subst hc
  obtain ⟨h1, h2⟩ := hr
  interval_cases n <;> rfl

theorem utoaAux_fuel {f g n : Nat} (hf : n < f) (hg : n < g) (acc : List Char) :
    utoaAux f n acc = utoaAux g n acc := by
  induction f generalizing g n acc with
  | zero => omega
  | succ f ih =>
    cases g with
    | zero => omega
    | succ g =>
      unfold utoaAux
      split_ifs with h10
      · rfl
      · exact ih (by omega) (by omega) _

theorem sprintf_u_lt_ten {n : Nat} (h : n < 10) : sprintf_u n = [digitChar n] := by
  simp [sprintf_u, utoaAux, h]

theorem sprintf_u_snoc {m d : Nat} (hm : 0 < m) (hd : d < 10) :
    sprintf_u (10 * m + d) = sprintf_u m ++ [digitChar d] := by
  have h10 : ¬ 10 * m + d < 10 := by omega
  have hdiv : (10 * m + d) / 10 = m := by omega
  have hmod : (10 * m + d) % 10 = d := by omega
  unfold sprintf_u
  rw [utoaAux, if_neg h10, hdiv, hmod, utoaAux_acc,
    utoaAux_fuel (g := m + 1) (by omega) (by omega)]

theorem foldl_digits_ge (r : List Char) (acc : Nat) :
    acc ≤ r.foldl (fun n c => 10 * n + digitVal c) acc := by
  induction r generalizing acc with
  | nil => exact Nat.le_refl _
  | cons x xs ih =>
    have := ih (10 * acc + digitVal x)
    simp only [List.foldl_cons]
    omega

theorem digitVal_pos {c : Char} (h : isdigit c = true) (h0 : c ≠ '0') : 0 < digitVal c := by
  have hr := isdigit_iff.mp h
  have hne : c.toNat ≠ '0'.toNat := toNat_ne_of_ne h0
  have h48 : '0'.toNat = 48 := by decide
  unfold digitVal
  omega

theorem decimalValue_pos {ds : List Char} (hd : AllDigits ds) (hne : ds ≠ [])
    (hh : ds.head? ≠ some '0') : 0 < decimalValue ds := by
  cases ds with
  | nil => exact absurd rfl hne
  | cons x xs =>
    have hx : isdigit x = true := hd x (List.mem_cons_self _ _)
    have hx0 : x ≠ '0' := by
      intro h
      apply hh
      simp [h]
    have h1 := digitVal_pos hx hx0
    have h2 := foldl_digits_ge xs (10 * 0 + digitVal x)
    simp only [decimalValue, List.foldl_cons]
    omega

/-- The encoder writes canonical text back from its value. -/
theorem sprintf_u_decimalValue {ds : List Char} (hc : Canonical ds) :
    sprintf_u (decimalValue ds) = ds := by
  obtain ⟨hne, hd, hz⟩ := hc
  induction ds using List.reverseRecOn with
  | nil => exact absurd rfl hne
  | append_singleton xs c ih =>
    have hcd : isdigit c = true := hd c (by simp)
    have hxd : AllDigits xs := fun y hy => hd y (List.mem_append_left _ hy)
    rw [decimalValue_snoc]
    by_cases hx : xs = []
    · subst hx
      have h0 : decimalValue [] = 0 := rfl
      rw [h0, Nat.mul_zero, Nat.zero_add, sprintf_u_lt_ten (digitVal_lt hcd),
        digitChar_digitVal hcd]
      rfl
    · have hhead : xs.head? ≠ some '0' := by
        intro hh
        have h2 : (xs ++ [c]).head? = some '0' := by
          rw [List.head?_append_of_ne_nil _ hx]; exact hh
        have h3 := hz h2
        have h4 : (xs ++ [c]).length = 1 := by rw [h3]; rfl
        have h5 : 0 < xs.length := List.length_pos.mpr hx
        simp only [List.length_append, List.length_singleton] at h4
        omega
      have hpos := decimalValue_pos hxd hx hhead
      have hih := ih hx hxd (fun hh => absurd hh hhead)
      rw [sprintf_u_snoc hpos (digitVal_lt hcd), hih, digitChar_digitVal hcd]

/-- The error a call reports is the error of the first stage that fails, in
the order empty string, minus-sign scan (unsigned widths only), no digit,
range check, trailing text; and an input made of a numeral that is out of
range and of text after it (without `-` for the unsigned widths) is reported
as OutOfRange, not as InvalidSyntax. Whether a failing stage is reported at
all is not part of this statement. -/
theorem reported_error_is_first_failure (a : Abi) :
    ((∀ s e, int1in a (some s) = .error e → firstFailure false (-128) 127 s = some e)
      ∧ (∀ s e, uint1in a (some s) = .error e → firstFailure true 0 255 s = some e)
      ∧ (∀ s e, uint2in a (some s) = .error e → firstFailure true 0 65535 s = some e)
      ∧ (∀ s e, uint4in a (some s) = .error e → firstFailure true 0 4294967295 s = some e)
      ∧ (∀ s e, uint8in (some s) = .error e
          → firstFailure true 0 18446744073709551615 s = some e))
    ∧ (∀ sg ds rest, IsSign sg → ds ≠ [] → AllDigits ds → startsDigit rest = false →
        ((signedValue sg ds < -128 ∨ 127 < signedValue sg ds) →
          int1in a (some (sg ++ ds ++ rest)) = .error .outOfRange)
        ∧ ('-' ∉ rest → 255 < decimalValue ds →
            uint1in a (some (ds ++ rest)) = .error .outOfRange)
        ∧ ('-' ∉ rest → 65535 < decimalValue ds →
            uint2in a (some (ds ++ rest)) = .error .outOfRange)
        ∧ ('-' ∉ rest → 4294967295 < decimalValue ds →
            uint4in a (some (ds ++ rest)) = .error .outOfRange)
        ∧ ('-' ∉ rest → 18446744073709551615 < decimalValue ds →
            uint8in (some (ds ++ rest)) = .error .outOfRange)) := by
  refine ⟨⟨?_, ?_, ?_, ?_, ?_⟩, ?_⟩
  · intro s e h
    exact int1in_error a h
  · intro s e h
    rw [uint1in_eq] at h
    exact_mod_cast unsignedResult_error h
  · intro s e h
    rw [uint2in_eq] at h
    exact_mod_cast unsignedResult_error h
  · intro s e h
    rw [uint4in_eq] at h
    exact_mod_cast unsignedResult_error h
  · intro s e h
    rw [uint8in_eq] at h
    exact_mod_cast unsignedResult_error h
  · intro sg ds rest hsg hne hd hr
    refine ⟨?_, ?_, ?_, ?_, ?_⟩
    · intro hv
      have h := int1in_numeral a allSpace_nil hsg hne hd rest hr
      simp only [List.nil_append] at h
      have hv2 : signedValue sg ds < -128 ∨ signedValue sg ds > 127 := hv
      rw [List.append_assoc, h, if_pos hv2]
    · intro hm hv
      have h := uint1in_numeral a allSpace_nil hne hd rest hr
      simp only [List.nil_append] at h
      have hv2 : decimalValue ds > umax 1 := by simp [umax]; omega
      rw [h, if_neg hm, if_pos hv2]
    · intro hm hv
      have h := uint2in_numeral a allSpace_nil hne hd rest hr
      simp only [List.nil_append] at h
      have hv2 : decimalValue ds > umax 2 := by simp [umax]; omega
      rw [h, if_neg hm, if_pos hv2]
    · intro hm hv
      have h := uint4in_numeral a allSpace_nil hne hd rest hr
      simp only [List.nil_append] at h
      have hv2 : decimalValue ds > umax 4 := by simp [umax]; omega
      rw [h, if_neg hm, if_pos hv2]
    · intro hm hv
      have h := uint8in_numeral allSpace_nil hne hd rest hr
      simp only [List.nil_append] at h
      have hv2 : decimalValue ds > umax 8 := by simp [umax]; omega
      rw [h, if_neg hm, if_pos hv2]

/-- A stage that fails is reported by `int1in`, with the error of the first
such stage, on a string without NUL characters. -/
theorem int1in_reports_first_failure (a : Abi) {s : List Char} {e : Err}
    (h0 : ∀ x ∈ s, x.toNat ≠ 0) (h : firstFailure false (-128) 127 s = some e) :
    int1in a (some s) = .error e := by
  unfold firstFailure at h
  by_cases hne : s = []
  · subst hne
    rw [if_pos rfl] at h
    injection h with h
    rw [← h]; rfl
  · have hm2 : ¬ (false = true ∧ '-' ∈ s) := fun hh => Bool.noConfusion hh.1
    rw [if_neg hne, if_neg hm2] at h
    cases hsub : subject s with
    | none =>
      rw [hsub] at h
      injection h with h
      rw [int1in_of_no_subject a hsub, h]
    | some u =>
      rw [hsub] at h
      simp only at h
      rw [int1in_of_subject a hsub]
      by_cases hr : u.value < -128 ∨ 127 < u.value
      · rw [if_pos hr] at h
        have hr2 : u.value < -128 ∨ u.value > 127 := hr
        injection h with h
        rw [if_pos hr2, h]
      · rw [if_neg hr] at h
        have hr2 : ¬ (u.value < -128 ∨ u.value > 127) := hr
        rw [if_neg hr2]
        by_cases hsk : skipSpace u.endp ≠ []
        · rw [if_pos hsk] at h
          injection h with h
          have h0e : ∀ x ∈ u.endp, x.toNat ≠ 0 :=
            fun x hx => h0 x (subject_endp_subset hsub x hx)
          have hns : ¬ AllSpace u.endp := fun hall => hsk (skipSpace_allSpace hall)
          have hg : garbageBefore 0 (skipSpace u.endp) = true := by
            cases hb : garbageBefore 0 (skipSpace u.endp) with
            | true => rfl
            | false =>
              rw [← skipTrailUntil_zero] at hb
              exact absurd ((garbage_zero_iff h0e).mp hb) hns
          rw [if_pos hg, h]
        · rw [if_neg hsk] at h; cases h

/-- A stage that fails is reported by the unsigned decoders, with the error
of the first such stage, unless the input is a non-empty string of white
space. -/
theorem unsignedResult_reports_first_failure {m : Nat} {s : List Char} {e : Err}
    (hsp : s = [] ∨ ¬ AllSpace s) (h : firstFailure true 0 m s = some e) :
    unsignedResult m s = .error e := by
  unfold firstFailure at h
  unfold unsignedResult
  by_cases hne : s = []
  · rw [if_pos hne] at h ⊢
    injection h with h; rw [h]
  · rw [if_neg hne] at h ⊢
    by_cases hm : '-' ∈ s
    · rw [if_pos ⟨rfl, hm⟩] at h
      rw [if_pos hm]
      injection h with h; rw [h]
    · have hm2 : ¬ (true = true ∧ '-' ∈ s) := fun hh => hm hh.2
      rw [if_neg hm2] at h
      rw [if_neg hm]
      cases hsub : subject s with
      | none =>
        rw [hsub] at h
        simp only at h ⊢
        have hns : ¬ AllSpace s := by
          rcases hsp with h1 | h1
          · exact absurd h1 hne
          · exact h1
        have hsk : skipSpace s ≠ [] := fun hnil => hns ((skipSpace_eq_nil_iff s).mp hnil)
        injection h with h
        rw [if_pos hsk, h]
      | some u =>
        rw [hsub] at h
        simp only at h ⊢
        have hn := subject_neg_false hsub hm
        have hv : u.value = (u.mag : Int) := by simp [Subject.value, hn]
        by_cases hgt : u.mag > m
        · have : u.value < 0 ∨ (m : Int) < u.value := by rw [hv]; omega
          rw [if_pos this] at h
          injection h with h
          rw [if_pos hgt, h]
        · have : ¬ (u.value < 0 ∨ (m : Int) < u.value) := by rw [hv]; omega
          rw [if_neg this] at h
          rw [if_neg hgt]
          by_cases hsk : skipSpace u.endp ≠ []
          · rw [if_pos hsk] at h ⊢
            injection h with h; rw [h]
          · rw [if_neg hsk] at h; cases h

/-! ## Scenarios listed in the specification -/

/-- The width-specific literals: "255" and "256" for `uint1`,
"18446744073709551615" and "18446744073709551616" for `uint8`, "-128" and
"-129" for `int1`. -/
theorem scenario_literals (a : Abi) :
    uint1in a (some "255".toList) = .ok 255
    ∧ uint1in a (some "256".toList) = .error .outOfRange
    ∧ uint8in (some "18446744073709551615".toList) = .ok 18446744073709551615
    ∧ uint8in (some "18446744073709551616".toList) = .error .outOfRange
    ∧ int1in a (some "-128".toList) = .ok (-128)
    ∧ int1in a (some "-129".toList) = .error .outOfRange := by
  cases a <;> decide

/-- The sign scenario: "-1" is InvalidSyntax for the unsigned widths and
`-1` for `int1in`. -/
theorem scenario_minus_one (a : Abi) :
    uint1in a (some "-1".toList) = .error .invalidSyntax
    ∧ uint2in a (some "-1".toList) = .error .invalidSyntax
    ∧ uint4in a (some "-1".toList) = .error .invalidSyntax
    ∧ uint8in (some "-1".toList) = .error .invalidSyntax
    ∧ int1in a (some "-1".toList) = .ok (-1) := by
  cases a <;> decide

/-- The inputs "12a", "12 a", "1_000", "1,000", "1.5" and "0x10" are
InvalidSyntax for every width. -/
theorem scenario_trailing_garbage (a : Abi) :
    ∀ t ∈ ["12a".toList, "12 a".toList, "1_000".toList, "1,000".toList, "1.5".toList,
        "0x10".toList],
      int1in a (some t) = .error .invalidSyntax
      ∧ uint1in a (some t) = .error .invalidSyntax
      ∧ uint2in a (some t) = .error .invalidSyntax
      ∧ uint4in a (some t) = .error .invalidSyntax
      ∧ uint8in (some t) = .error .invalidSyntax := by
  cases a <;> decide

/-- The leading zeros scenario: "007" is 7 for `uint1in`, and 7 is written
"7". -/
theorem scenario_leading_zeros (a : Abi) :
    uint1in a (some "007".toList) = .ok 7 ∧ uint1out 7 = "7".toList := by
  cases a <;> decide

/-- An out-of-range numeral followed by a letter: "999x" for `int1in`,
"256a" for `uint1in` and the like for the wider decoders are OutOfRange. -/
theorem scenario_out_of_range_then_letter (a : Abi) :
    int1in a (some "999x".toList) = .error .outOfRange
    ∧ uint1in a (some "256a".toList) = .error .outOfRange
    ∧ uint2in a (some "65536a".toList) = .error .outOfRange
    ∧ uint4in a (some "4294967296a".toList) = .error .outOfRange
    ∧ uint8in (some "18446744073709551616a".toList) = .error .outOfRange := by
  cases a <;> decide

/-- A terminator above 127 is not matched by a character of the string: the
character U+00E9 after "12" is trailing text for `pg_atoi` with `c = 233`,
while an ASCII terminator is matched. -/
theorem scenario_terminator (a : Abi) :
    pg_atoi a (some "12\u00e9".toList) 1 233 = .error .invalidSyntax
    ∧ pg_atoi a (some "12,34".toList) 1 44 = .ok 12
    ∧ pg_atoi a (some "12 ,34".toList) 1 44 = .ok 12
    ∧ pg_atoi a (some "12,34".toList) 1 0 = .error .invalidSyntax := by
  cases a <;> decide

/-! ## The claims -/

/-- C1: round trip. For each of the five widths and every value `v` of the
width, the decoder applied to the text its encoder produces for `v` succeeds
and returns `v`. -/
theorem C1_round_trip (a : Abi) :
    (∀ v : Int, -128 ≤ v → v ≤ 127 → int1in a (some (int1out v)) = .ok v)
    ∧ (∀ v : Nat, v ≤ 255 → uint1in a (some (uint1out v)) = .ok v)
    ∧ (∀ v : Nat, v ≤ 65535 → uint2in a (some (uint2out v)) = .ok v)
    ∧ (∀ v : Nat, v ≤ 4294967295 → uint4in a (some (uint4out v)) = .ok v)
    ∧ (∀ v : Nat, v ≤ 18446744073709551615 → uint8in (some (uint8out v)) = .ok v) := by
  refine ⟨?_, ?_, ?_, ?_, ?_⟩
  · intro v h1 h2
    have hv : PG_GETARG_INT8 v = v := by
      simp only [PG_GETARG_INT8, toSigned]; norm_num; omega
    obtain ⟨hform, hval⟩ := sprintf_d_form v
    have hsg : IsSign (if v < 0 then ['-'] else []) := by
      unfold IsSign; split_ifs <;> simp
    rw [int1out, hv, hform,
      int1in_signed_digits a hsg (sprintf_u_ne_nil _) (sprintf_u_allDigits _), hval,
      if_pos ⟨h1, h2⟩]
  · intro v h
    have hv : PG_GETARG_UINT8 v = v := Nat.mod_eq_of_lt (by norm_num; omega)
    rw [uint1out, hv, uint1in_digits a (sprintf_u_ne_nil _) (sprintf_u_allDigits _),
      sprintf_u_value, if_pos h]
  · intro v h
    have hv : PG_GETARG_UINT16 v = v := Nat.mod_eq_of_lt (by norm_num; omega)
    rw [uint2out, hv, uint2in_digits a (sprintf_u_ne_nil _) (sprintf_u_allDigits _),
      sprintf_u_value, if_pos h]
  · intro v h
    have hv : PG_GETARG_UINT32 v = v := Nat.mod_eq_of_lt (by norm_num; omega)
    rw [uint4out, hv, uint4in_digits a (sprintf_u_ne_nil _) (sprintf_u_allDigits _),
      sprintf_u_value, if_pos h]
  · intro v h
    have hv : PG_GETARG_UINT64 v = v := Nat.mod_eq_of_lt (by norm_num; omega)
    rw [uint8out, hv, uint8in_digits (sprintf_u_ne_nil _) (sprintf_u_allDigits _),
      sprintf_u_value, if_pos h]

/-- C1 at the extreme values of each width. -/
theorem C1_round_trip_witness :
    int1in .lp64 (some (int1out (-128))) = .ok (-128)
    ∧ uint1in .lp64 (some (uint1out 255)) = .ok 255
    ∧ uint2in .lp64 (some (uint2out 65535)) = .ok 65535
    ∧ uint4in .lp64 (some (uint4out 4294967295)) = .ok 4294967295
    ∧ uint8in (some (uint8out 18446744073709551615)) = .ok 18446744073709551615 :=
  ⟨(C1_round_trip .lp64).1 (-128) (by decide) (by decide),
   (C1_round_trip .lp64).2.1 255 (by decide),
   (C1_round_trip .lp64).2.2.1 65535 (by decide),
   (C1_round_trip .lp64).2.2.2.1 4294967295 (by decide),
   (C1_round_trip .lp64).2.2.2.2 18446744073709551615 (by decide)⟩

/-- C2: on a non-empty string of digits of decimal value `n`, each of
`uint1in`, `uint2in`, `uint4in` returns `n` when `n` is at most the maximum of
its width (255, 65535, 4294967295) and reports OutOfRange otherwise, however
long the string is; the value is never truncated or wrapped. -/
theorem C2_unsigned_range (a : Abi) (ds : List Char) (hne : ds ≠ []) (hd : AllDigits ds) :
    uint1in a (some ds)
        = (if decimalValue ds ≤ 255 then .ok (decimalValue ds) else .error .outOfRange)
    ∧ uint2in a (some ds)
        = (if decimalValue ds ≤ 65535 then .ok (decimalValue ds) else .error .outOfRange)
    ∧ uint4in a (some ds)
        = (if decimalValue ds ≤ 4294967295 then .ok (decimalValue ds)
           else .error .outOfRange) :=
  ⟨uint1in_digits a hne hd, uint2in_digits a hne hd, uint4in_digits a hne hd⟩

/-- C2 at "4294967296", one more than the maximum of `uint4`, where `long`
has 32 bits and the accumulator itself overflows. -/
theorem C2_unsigned_range_witness :
    uint1in .ilp32 (some "4294967296".toList) = .error .outOfRange
    ∧ uint2in .ilp32 (some "4294967296".toList) = .error .outOfRange
    ∧ uint4in .ilp32 (some "4294967296".toList) = .error .outOfRange :=
  C2_unsigned_range .ilp32 "4294967296".toList (by decide) (by decide)

/-- C3: on a non-empty string of digits of decimal value `n`, `uint8in`
returns `n` when `n ≤ 18446744073709551615` and reports OutOfRange otherwise;
it never returns `n` reduced modulo `2^64`. -/
theorem C3_uint8_range (ds : List Char) (hne : ds ≠ []) (hd : AllDigits ds) :
    uint8in (some ds)
      = (if decimalValue ds ≤ 18446744073709551615 then .ok (decimalValue ds)
         else .error .outOfRange) :=
  uint8in_digits hne hd

/-- C3 at "18446744073709551616", which is `2^64`. -/
theorem C3_uint8_range_witness :
    uint8in (some "18446744073709551616".toList) = .error .outOfRange :=
  C3_uint8_range "18446744073709551616".toList (by decide) (by decide)

/-- C4: on an optional sign followed by a non-empty string of digits,
denoting the integer `n`, `int1in` returns `n` when `-128 ≤ n ≤ 127` and
reports OutOfRange otherwise, also when the magnitude does not fit `long`. -/
theorem C4_int1_range (a : Abi) (sg ds : List Char) (hsg : IsSign sg) (hne : ds ≠ [])
    (hd : AllDigits ds) :
    int1in a (some (sg ++ ds))
      = (if -128 ≤ signedValue sg ds ∧ signedValue sg ds ≤ 127 then .ok (signedValue sg ds)
         else .error .outOfRange) :=
  int1in_signed_digits a hsg hne hd

/-- C4 at "-128", the least value. -/
theorem C4_int1_range_witness : int1in .lp64 (some "-128".toList) = .ok (-128) :=
  C4_int1_range .lp64 ['-'] "128".toList (by decide) (by decide) (by decide)

/-- C5: for every unsigned width, an input that contains `-` at any position
is rejected with InvalidSyntax, whatever the rest of the input is. -/
theorem C5_minus_rejected (a : Abi) (s : List Char) (h : '-' ∈ s) :
    uint1in a (some s) = .error .invalidSyntax
    ∧ uint2in a (some s) = .error .invalidSyntax
    ∧ uint4in a (some s) = .error .invalidSyntax
    ∧ uint8in (some s) = .error .invalidSyntax := by
  have hne : s ≠ [] := List.ne_nil_of_mem h
  have hchr : (strchr s '-').isSome = true := (strchr_isSome s '-').mpr h
  have hp : ∀ size, pg_atou a (some s) size = .error .invalidSyntax := by
    intro size
    simp [pg_atou, hne, hchr]
  refine ⟨?_, ?_, ?_, ?_⟩
  · rw [uint1in, hp]; rfl
  · rw [uint2in, hp]; rfl
  · rw [uint4in, hp]; rfl
  · simp [uint8in, hne, hchr]

/-- C5 at "999-": InvalidSyntax, not OutOfRange, also for `uint1`. -/
theorem C5_minus_rejected_witness :
    uint1in .lp64 (some "999-".toList) = .error .invalidSyntax
    ∧ uint2in .lp64 (some "999-".toList) = .error .invalidSyntax
    ∧ uint4in .lp64 (some "999-".toList) = .error .invalidSyntax
    ∧ uint8in (some "999-".toList) = .error .invalidSyntax :=
  C5_minus_rejected .lp64 "999-".toList (by decide)

/-- C6: for every width, an input made of an in-range numeral (for `int1in`
an optional sign and digits, for the unsigned decoders digits), then white
space `ws`, then a character `g` that is neither white space nor the string
end, then anything, is rejected with InvalidSyntax. The numeral is the whole
run of digits: when `ws` is empty, `g` is not a digit. -/
theorem C6_trailing_garbage (a : Abi) (sg ds ws : List Char) (g : Char) (tail : List Char)
    (hsg : IsSign sg) (hne : ds ≠ []) (hd : AllDigits ds) (hws : AllSpace ws)
    (hg : isspace g = false) (hg0 : g.toNat ≠ 0) (hmax : ws = [] → isdigit g = false) :
    (-128 ≤ signedValue sg ds → signedValue sg ds ≤ 127 →
        int1in a (some (sg ++ ds ++ ws ++ g :: tail)) = .error .invalidSyntax)
    ∧ (decimalValue ds ≤ 255 →
        uint1in a (some (ds ++ ws ++ g :: tail)) = .error .invalidSyntax)
    ∧ (decimalValue ds ≤ 65535 →
        uint2in a (some (ds ++ ws ++ g :: tail)) = .error .invalidSyntax)
    ∧ (decimalValue ds ≤ 4294967295 →
        uint4in a (some (ds ++ ws ++ g :: tail)) = .error .invalidSyntax)
    ∧ (decimalValue ds ≤ 18446744073709551615 →
        uint8in (some (ds ++ ws ++ g :: tail)) = .error .invalidSyntax) := by
  have hr := startsDigit_space_then hws hmax tail
  have hsk := skipTrail_space_then hws hg tail
  have hgb := garbage_space_then hws hg hg0 tail
  refine ⟨?_, ?_, ?_, ?_, ?_⟩
  · intro h1 h2
    have h := int1in_numeral a allSpace_nil hsg hne hd (ws ++ g :: tail) hr
    simp only [List.nil_append] at h
    rw [List.append_assoc, List.append_assoc, h, hgb]
    have : ¬ (signedValue sg ds < -128 ∨ signedValue sg ds > 127) := by omega
    simp [this]
  · intro h1
    have h := uint1in_numeral a allSpace_nil hne hd (ws ++ g :: tail) hr
    simp only [List.nil_append] at h
    rw [List.append_assoc, h, hsk]
    have : ¬ decimalValue ds > umax 1 := by simp [umax]; omega
    simp [this]
  · intro h1
    have h := uint2in_numeral a allSpace_nil hne hd (ws ++ g :: tail) hr
    simp only [List.nil_append] at h
    rw [List.append_assoc, h, hsk]
    have : ¬ decimalValue ds > umax 2 := by simp [umax]; omega
    simp [this]
  · intro h1
    have h := uint4in_numeral a allSpace_nil hne hd (ws ++ g :: tail) hr
    simp only [List.nil_append] at h
    rw [List.append_assoc, h, hsk]
    have : ¬ decimalValue ds > umax 4 := by simp [umax]; omega
    simp [this]
  · intro h1
    have h := uint8in_numeral allSpace_nil hne hd (ws ++ g :: tail) hr
    simp only [List.nil_append] at h
    rw [List.append_assoc, h, hsk]
    have : ¬ decimalValue ds > umax 8 := by simp [umax]; omega
    simp [this]

/-- C6 at "12 a", rejected for every width. -/
theorem C6_trailing_garbage_witness :
    int1in .lp64 (some "12 a".toList) = .error .invalidSyntax
    ∧ uint1in .lp64 (some "12 a".toList) = .error .invalidSyntax
    ∧ uint2in .lp64 (some "12 a".toList) = .error .invalidSyntax
    ∧ uint4in .lp64 (some "12 a".toList) = .error .invalidSyntax
    ∧ uint8in (some "12 a".toList) = .error .invalidSyntax :=
  have h := C6_trailing_garbage .lp64 [] "12".toList " ".toList 'a' []
    (by decide) (by decide) (by decide) (by decide) (by decide) (by decide) (by decide)
  ⟨h.1 (by decide) (by decide), h.2.1 (by decide), h.2.2.1 (by decide),
   h.2.2.2.1 (by decide), h.2.2.2.2 (by decide)⟩

/-- C7: trailing white space is tolerated. For every width, when the decoder
accepts `s` with value `v`, it accepts `s` followed by any string `w` of white
space with the same value. -/
theorem C7_trailing_space (a : Abi) (s w : List Char) (hw : AllSpace w) :
    (∀ v, int1in a (some s) = .ok v → int1in a (some (s ++ w)) = .ok v)
    ∧ (∀ v, uint1in a (some s) = .ok v → uint1in a (some (s ++ w)) = .ok v)
    ∧ (∀ v, uint2in a (some s) = .ok v → uint2in a (some (s ++ w)) = .ok v)
    ∧ (∀ v, uint4in a (some s) = .ok v → uint4in a (some (s ++ w)) = .ok v)
    ∧ (∀ v, uint8in (some s) = .ok v → uint8in (some (s ++ w)) = .ok v) := by
  refine ⟨?_, ?_, ?_, ?_, ?_⟩
  · intro v h
    have hs : s ≠ [] :=
      ne_nil_of_map_ok (f := fun t => pg_atoi a (some t) 1 0) (pg_atoi_nil a 1 0) h
    rw [int1in, pg_atoi_append_space a 1 0 hs hw]; exact h
  · intro v h
    have hs : s ≠ [] := ne_nil_of_map_ok (f := fun t => pg_atou a (some t) 1) (pg_atou_nil a 1) h
    rw [uint1in, pg_atou_append_space a 1 hs hw]; exact h
  · intro v h
    have hs : s ≠ [] := ne_nil_of_map_ok (f := fun t => pg_atou a (some t) 2) (pg_atou_nil a 2) h
    rw [uint2in, pg_atou_append_space a 2 hs hw]; exact h
  · intro v h
    have hs : s ≠ [] := ne_nil_of_map_ok (f := fun t => pg_atou a (some t) 4) (pg_atou_nil a 4) h
    rw [uint4in, pg_atou_append_space a 4 hs hw]; exact h
  · intro v h
    have hs : s ≠ [] := by
      rintro rfl
      rw [uint8in_nil] at h
      cases h
    rw [uint8in_append_space hs hw]; exact h

/-- C7 at "12" followed by a space and a tab: 12 for every width. -/
theorem C7_trailing_space_witness :
    int1in .lp64 (some "12 \t".toList) = .ok 12
    ∧ uint1in .lp64 (some "12 \t".toList) = .ok 12
    ∧ uint2in .lp64 (some "12 \t".toList) = .ok 12
    ∧ uint4in .lp64 (some "12 \t".toList) = .ok 12
    ∧ uint8in (some "12 \t".toList) = .ok 12 :=
  have h := C7_trailing_space .lp64 "12".toList " \t".toList (by decide)
  ⟨h.1 12 (by decide), h.2.1 12 (by decide), h.2.2.1 12 (by decide),
   h.2.2.2.1 12 (by decide), h.2.2.2.2 12 (by decide)⟩

/-- C8: the empty string is rejected with InvalidSyntax by every decoder. -/
theorem C8_empty_input (a : Abi) :
    int1in a (some []) = .error .invalidSyntax
    ∧ uint1in a (some []) = .error .invalidSyntax
    ∧ uint2in a (some []) = .error .invalidSyntax
    ∧ uint4in a (some []) = .error .invalidSyntax
    ∧ uint8in (some []) = .error .invalidSyntax :=
  ⟨rfl, rfl, rfl, rfl, rfl⟩

/-- C9, the code at the input " ": no digit is consumed, `int1in` reports
InvalidSyntax, and the four unsigned decoders return 0, since `pg_atou` and
`uint8in` do not test whether the conversion made progress. -/
theorem C9_space_only_input (a : Abi) :
    int1in a (some " ".toList) = .error .invalidSyntax
    ∧ (subject " ".toList = none
      ∧ uint1in a (some " ".toList) = .ok 0
      ∧ uint2in a (some " ".toList) = .ok 0
      ∧ uint4in a (some " ".toList) = .ok 0
      ∧ uint8in (some " ".toList) = .ok 0) := by
  cases a <;> decide

/-- C10, as stated, fails at " 12": the four unsigned decoders accept it and
return 12; none reports InvalidSyntax. -/
theorem C10_leading_space_counterexample :
    (uint1in .lp64 (some " 12".toList) = .ok 12
      ∧ uint2in .lp64 (some " 12".toList) = .ok 12
      ∧ uint4in .lp64 (some " 12".toList) = .ok 12
      ∧ uint8in (some " 12".toList) = .ok 12)
    ∧ ¬ (uint1in .lp64 (some " 12".toList) = .error .invalidSyntax
      ∨ uint2in .lp64 (some " 12".toList) = .error .invalidSyntax
      ∨ uint4in .lp64 (some " 12".toList) = .error .invalidSyntax
      ∨ uint8in (some " 12".toList) = .error .invalidSyntax) := by
  decide

/-- C10, amended: the unsigned decoders skip leading white space. When one
of them accepts `s` with value `v`, it accepts any string `w` of white space
followed by `s` with the same value. -/
theorem C10_leading_space_skipped (a : Abi) (w s : List Char) (hw : AllSpace w) :
    (∀ v, uint1in a (some s) = .ok v → uint1in a (some (w ++ s)) = .ok v)
    ∧ (∀ v, uint2in a (some s) = .ok v → uint2in a (some (w ++ s)) = .ok v)
    ∧ (∀ v, uint4in a (some s) = .ok v → uint4in a (some (w ++ s)) = .ok v)
    ∧ (∀ v, uint8in (some s) = .ok v → uint8in (some (w ++ s)) = .ok v) := by
  refine ⟨?_, ?_, ?_, ?_⟩
  · intro v h
    have hs : s ≠ [] := ne_nil_of_map_ok (f := fun t => pg_atou a (some t) 1) (pg_atou_nil a 1) h
    rw [uint1in, pg_atou_space_append a 1 hs hw]; exact h
  · intro v h
    have hs : s ≠ [] := ne_nil_of_map_ok (f := fun t => pg_atou a (some t) 2) (pg_atou_nil a 2) h
    rw [uint2in, pg_atou_space_append a 2 hs hw]; exact h
  · intro v h
    have hs : s ≠ [] := ne_nil_of_map_ok (f := fun t => pg_atou a (some t) 4) (pg_atou_nil a 4) h
    rw [uint4in, pg_atou_space_append a 4 hs hw]; exact h
  · intro v h
    have hs : s ≠ [] := by
      rintro rfl
      rw [uint8in_nil] at h
      cases h
    rw [uint8in_space_append hs hw]; exact h

/-- C10, amended, at a space followed by "12". -/
theorem C10_leading_space_skipped_witness :
    uint1in .lp64 (some " 12".toList) = .ok 12
    ∧ uint2in .lp64 (some " 12".toList) = .ok 12
    ∧ uint4in .lp64 (some " 12".toList) = .ok 12
    ∧ uint8in (some " 12".toList) = .ok 12 :=
  have h := C10_leading_space_skipped .lp64 " ".toList "12".toList (by decide)
  ⟨h.1 12 (by decide), h.2.1 12 (by decide), h.2.2.1 12 (by decide),
   h.2.2.2 12 (by decide)⟩

/-- C11: `int1in` skips leading white space. When it accepts `s` with value
`v`, it accepts any string `w` of white space followed by `s` with the same
value. -/
theorem C11_int1_leading_space (a : Abi) (w s : List Char) (hw : AllSpace w) (v : Int)
    (h : int1in a (some s) = .ok v) : int1in a (some (w ++ s)) = .ok v := by
  cases hsub : subject s with
  | none =>
    rw [int1in_of_no_subject a hsub] at h
    cases h
  | some u =>
    rw [int1in, pg_atoi_space_append a (Or.inl rfl) 0 hw hsub]
    exact h

/-- C11 at a space before "12" and at a tab before "-5". -/
theorem C11_int1_leading_space_witness :
    int1in .lp64 (some " 12".toList) = .ok 12
    ∧ int1in .lp64 (some "\t-5".toList) = .ok (-5) :=
  ⟨C11_int1_leading_space .lp64 " ".toList "12".toList (by decide) 12 (by decide),
   C11_int1_leading_space .lp64 "\t".toList "-5".toList (by decide) (-5) (by decide)⟩

/-- C12, as stated, fails at "+5": the four unsigned decoders accept it and
return 5, as `int1in` does; none reports InvalidSyntax. -/
theorem C12_plus_sign_counterexample :
    (uint1in .lp64 (some "+5".toList) = .ok 5
      ∧ uint2in .lp64 (some "+5".toList) = .ok 5
      ∧ uint4in .lp64 (some "+5".toList) = .ok 5
      ∧ uint8in (some "+5".toList) = .ok 5
      ∧ int1in .lp64 (some "+5".toList) = .ok 5)
    ∧ ¬ (uint1in .lp64 (some "+5".toList) = .error .invalidSyntax
      ∨ uint2in .lp64 (some "+5".toList) = .error .invalidSyntax
      ∨ uint4in .lp64 (some "+5".toList) = .error .invalidSyntax
      ∨ uint8in (some "+5".toList) = .error .invalidSyntax) := by
  decide

/-- C12, amended: a leading `+` is part of the numeral for every width. An
input made of `+` and a non-empty string of digits of value `n` is read by
each decoder as the digits alone: `n` when it is in the range of the width,
OutOfRange otherwise. -/
theorem C12_plus_sign_accepted (a : Abi) (ds : List Char) (hne : ds ≠ [])
    (hd : AllDigits ds) :
    uint1in a (some ('+' :: ds))
        = (if decimalValue ds ≤ 255 then .ok (decimalValue ds) else .error .outOfRange)
    ∧ uint2in a (some ('+' :: ds))
        = (if decimalValue ds ≤ 65535 then .ok (decimalValue ds) else .error .outOfRange)
    ∧ uint4in a (some ('+' :: ds))
        = (if decimalValue ds ≤ 4294967295 then .ok (decimalValue ds)
           else .error .outOfRange)
    ∧ uint8in (some ('+' :: ds))
        = (if decimalValue ds ≤ 18446744073709551615 then .ok (decimalValue ds)
           else .error .outOfRange)
    ∧ int1in a (some ('+' :: ds))
        = (if decimalValue ds ≤ 127 then .ok (decimalValue ds : Int)
           else .error .outOfRange) := by
  have hsub : subject ('+' :: ds) = some ⟨false, decimalValue ds, []⟩ := by
    simpa using subject_plus_digits allSpace_nil hne hd [] rfl
  have hm : '-' ∉ '+' :: ds := by
    intro hmem
    rcases List.mem_cons.mp hmem with h | h
    · exact absurd h (by decide)
    · exact minus_not_mem_of_allDigits hd h
  refine ⟨?_, ?_, ?_, ?_, ?_⟩
  · rw [uint1in_of_subject a hm hsub]
    simp only [skipSpace, ne_eq, not_true_eq_false, if_false]
    split_ifs <;> first | rfl | omega
  · rw [uint2in_of_subject a hm hsub]
    simp only [skipSpace, ne_eq, not_true_eq_false, if_false]
    split_ifs <;> first | rfl | omega
  · rw [uint4in_of_subject a hm hsub]
    simp only [skipSpace, ne_eq, not_true_eq_false, if_false]
    split_ifs <;> first | rfl | omega
  · rw [uint8in_of_subject_lit hm hsub]
    simp only [skipSpace, ne_eq, not_true_eq_false, if_false]
    split_ifs <;> first | rfl | omega
  · have h := @int1in_signed_digits a ['+'] ds (Or.inr (Or.inl rfl)) hne hd
    have hv : signedValue ['+'] ds = (decimalValue ds : Int) := by
      simp [signedValue]
    rw [hv] at h
    rw [List.singleton_append] at h
    rw [h]
    split_ifs <;> first | rfl | omega

/-- C12, amended, at "+5": 5 for every width. -/
theorem C12_plus_sign_accepted_witness :
    uint1in .lp64 (some "+5".toList) = .ok 5
    ∧ uint2in .lp64 (some "+5".toList) = .ok 5
    ∧ uint4in .lp64 (some "+5".toList) = .ok 5
    ∧ uint8in (some "+5".toList) = .ok 5
    ∧ int1in .lp64 (some "+5".toList) = .ok 5 :=
  C12_plus_sign_accepted .lp64 "5".toList (by decide) (by decide)

/-- C13: leading zeros do not change the result. For every width, a
non-empty string of digits `d` and `k` characters `0` in front of it are
decoded to the same result, value or error. -/
theorem C13_leading_zeros (a : Abi) (d : List Char) (k : Nat) (hne : d ≠ [])
    (hd : AllDigits d) :
    int1in a (some (List.replicate k '0' ++ d)) = int1in a (some d)
    ∧ uint1in a (some (List.replicate k '0' ++ d)) = uint1in a (some d)
    ∧ uint2in a (some (List.replicate k '0' ++ d)) = uint2in a (some d)
    ∧ uint4in a (some (List.replicate k '0' ++ d)) = uint4in a (some d)
    ∧ uint8in (some (List.replicate k '0' ++ d)) = uint8in (some d) := by
  have hne2 : List.replicate k '0' ++ d ≠ [] := by simp [hne]
  have hd2 := allDigits_zeros_append hd k
  have hv := decimalValue_zeros k d
  refine ⟨?_, ?_, ?_, ?_, ?_⟩
  · have h1 := @int1in_signed_digits a [] (List.replicate k '0' ++ d) (Or.inl rfl) hne2 hd2
    have h2 := @int1in_signed_digits a [] d (Or.inl rfl) hne hd
    simp only [List.nil_append] at h1 h2
    rw [h1, h2]
    simp only [signedValue, hv]
  · rw [uint1in_digits a hne2 hd2, uint1in_digits a hne hd, hv]
  · rw [uint2in_digits a hne2 hd2, uint2in_digits a hne hd, hv]
  · rw [uint4in_digits a hne2 hd2, uint4in_digits a hne hd, hv]
  · rw [uint8in_digits hne2 hd2, uint8in_digits hne hd, hv]

/-- C13 at "007": the result of "7", which is 7, for every width. -/
theorem C13_leading_zeros_witness :
    int1in .lp64 (some "007".toList) = .ok 7
    ∧ uint1in .lp64 (some "007".toList) = .ok 7
    ∧ uint2in .lp64 (some "007".toList) = .ok 7
    ∧ uint4in .lp64 (some "007".toList) = .ok 7
    ∧ uint8in (some "007".toList) = .ok 7 :=
  C13_leading_zeros .lp64 "7".toList 2 (by decide) (by decide)

/-- C14: the encoders write canonical decimal text of their argument. The
output of each unsigned encoder is a non-empty string of digits that starts
with `0` only when it is "0", and its decimal value is the value the unsigned
argument holds; for `v` in `[-128, 127]` the output of `int1out` is the
canonical digit string of `|v|`, after one `-` when `v < 0` and after nothing
otherwise; no output holds a `+` or white space. -/
theorem C14_canonical_output (d : Nat) (v : Int) :
    ((Canonical (uint1out d) ∧ decimalValue (uint1out d) = d % 2 ^ 8)
      ∧ (Canonical (uint2out d) ∧ decimalValue (uint2out d) = d % 2 ^ 16)
      ∧ (Canonical (uint4out d) ∧ decimalValue (uint4out d) = d % 2 ^ 32)
      ∧ (Canonical (uint8out d) ∧ decimalValue (uint8out d) = d % 2 ^ 64))
    ∧ (-128 ≤ v → v ≤ 127 →
        ∃ ds, Canonical ds ∧ decimalValue ds = v.natAbs
          ∧ int1out v = if v < 0 then '-' :: ds else ds)
    ∧ (∀ out ∈ [uint1out d, uint2out d, uint4out d, uint8out d, int1out v],
        ∀ c ∈ out, c ≠ '+' ∧ isspace c = false) := by
  refine ⟨⟨⟨sprintf_u_canonical _, sprintf_u_value _⟩,
    ⟨sprintf_u_canonical _, sprintf_u_value _⟩,
    ⟨sprintf_u_canonical _, sprintf_u_value _⟩,
    ⟨sprintf_u_canonical _, sprintf_u_value _⟩⟩, ?_, ?_⟩
  · intro h1 h2
    have hv : PG_GETARG_INT8 v = v := by
      simp only [PG_GETARG_INT8, toSigned]; norm_num; omega
    refine ⟨sprintf_u v.natAbs, sprintf_u_canonical _, sprintf_u_value _, ?_⟩
    rw [int1out, hv, sprintf_d]
  · intro out hout c hc
    simp only [List.mem_cons, List.mem_singleton, List.not_mem_nil, or_false] at hout
    rcases hout with rfl | rfl | rfl | rfl | rfl
    · exact not_plus_not_space_of_allDigits (sprintf_u_allDigits _) c hc
    · exact not_plus_not_space_of_allDigits (sprintf_u_allDigits _) c hc
    · exact not_plus_not_space_of_allDigits (sprintf_u_allDigits _) c hc
    · exact not_plus_not_space_of_allDigits (sprintf_u_allDigits _) c hc
    · rw [int1out, sprintf_d] at hc
      split_ifs at hc
      · rcases List.mem_cons.mp hc with rfl | hc
        · decide
        · exact not_plus_not_space_of_allDigits (sprintf_u_allDigits _) c hc
      · exact not_plus_not_space_of_allDigits (sprintf_u_allDigits _) c hc

/-- C14 at 7 for the unsigned encoders and at -128 for `int1out`: "7" and
"-128". -/
theorem C14_canonical_output_witness :
    uint1out 7 = "7".toList
    ∧ (Canonical (uint1out 7) ∧ decimalValue (uint1out 7) = 7 % 2 ^ 8)
    ∧ (Canonical (uint8out 7) ∧ decimalValue (uint8out 7) = 7 % 2 ^ 64)
    ∧ ∃ ds, Canonical ds ∧ decimalValue ds = (-128 : Int).natAbs
        ∧ int1out (-128) = if (-128 : Int) < 0 then '-' :: ds else ds :=
  ⟨by decide, (C14_canonical_output 7 (-128)).1.1, (C14_canonical_output 7 (-128)).1.2.2.2,
   (C14_canonical_output 7 (-128)).2.1 (by decide) (by decide)⟩

/-- C15: the text of each encoder and its terminator fit the buffer
allocated: 5 bytes for `int1out`, 4 for `uint1out`, 6 for `uint2out`, 11 for
`uint4out` and 21 for `uint8out`, for every argument. -/
theorem C15_buffer_size (v : Int) (d : Nat) :
    (int1out v).length + 1 ≤ 5
    ∧ (uint1out d).length + 1 ≤ 4
    ∧ (uint2out d).length + 1 ≤ 6
    ∧ (uint4out d).length + 1 ≤ 11
    ∧ (uint8out d).length + 1 ≤ 21 := by
  refine ⟨?_, ?_, ?_, ?_, ?_⟩
  · have hr := toSigned8_range v
    have h : (PG_GETARG_INT8 v).natAbs < 10 ^ 3 := by
      simp only [PG_GETARG_INT8]; norm_num; omega
    have := sprintf_d_length h (by decide)
    simp only [int1out]; omega
  · have h : PG_GETARG_UINT8 d < 10 ^ 3 := by
      have : d % 2 ^ 8 < 2 ^ 8 := Nat.mod_lt _ (by norm_num)
      simp only [PG_GETARG_UINT8, toUnsigned]; norm_num at *; omega
    have := sprintf_u_length h (by decide)
    simp only [uint1out]; omega
  · have h : PG_GETARG_UINT16 d < 10 ^ 5 := by
      have : d % 2 ^ 16 < 2 ^ 16 := Nat.mod_lt _ (by norm_num)
      simp only [PG_GETARG_UINT16, toUnsigned]; norm_num at *; omega
    have := sprintf_u_length h (by decide)
    simp only [uint2out]; omega
  · have h : PG_GETARG_UINT32 d < 10 ^ 10 := by
      have : d % 2 ^ 32 < 2 ^ 32 := Nat.mod_lt _ (by norm_num)
      simp only [PG_GETARG_UINT32, toUnsigned]; norm_num at *; omega
    have := sprintf_u_length h (by decide)
    simp only [uint4out]; omega
  · have h : PG_GETARG_UINT64 d < 10 ^ 20 := by
      have : d % 2 ^ 64 < 2 ^ 64 := Nat.mod_lt _ (by norm_num)
      simp only [PG_GETARG_UINT64, toUnsigned]; norm_num at *; omega
    have := sprintf_u_length h (by decide)
    simp only [uint8out]; omega

/-- C17: a NULL input is reported by every decoder with the plain error
"NULL pointer", which is neither InvalidSyntax nor OutOfRange; no value is
returned. -/
theorem C17_null_input (a : Abi) :
    (int1in a none = .error .nullPointer
      ∧ uint1in a none = .error .nullPointer
      ∧ uint2in a none = .error .nullPointer
      ∧ uint4in a none = .error .nullPointer
      ∧ uint8in none = .error .nullPointer)
    ∧ Err.nullPointer ≠ Err.invalidSyntax
    ∧ Err.nullPointer ≠ Err.outOfRange :=
  ⟨⟨rfl, rfl, rfl, rfl, rfl⟩, by decide, by decide⟩

/-- C16, the code at the input " ", a single space: the first stage that
fails is the no-digit stage, whose error is InvalidSyntax; `int1in` reports
it, and the four unsigned decoders report no error and return 0. -/
theorem C16_no_digit_stage_unreported (a : Abi) :
    (firstFailure false (-128) 127 " ".toList = some .invalidSyntax
      ∧ int1in a (some " ".toList) = .error .invalidSyntax)
    ∧ (firstFailure true 0 255 " ".toList = some .invalidSyntax
      ∧ uint1in a (some " ".toList) = .ok 0)
    ∧ (firstFailure true 0 65535 " ".toList = some .invalidSyntax
      ∧ uint2in a (some " ".toList) = .ok 0)
    ∧ (firstFailure true 0 4294967295 " ".toList = some .invalidSyntax
      ∧ uint4in a (some " ".toList) = .ok 0)
    ∧ (firstFailure true 0 18446744073709551615 " ".toList = some .invalidSyntax
      ∧ uint8in (some " ".toList) = .ok 0) := by
  cases a <;> decide

/-- C19: the unsigned decoders agree upward. A value that `uint1in` returns
for an input is returned for it by `uint2in`, `uint4in` and `uint8in`; a
value of `uint2in` by `uint4in` and `uint8in`; a value of `uint4in` by
`uint8in`. -/
theorem C19_upward_agreement (a : Abi) (s : List Char) (v : Nat) :
    (uint1in a (some s) = .ok v →
        uint2in a (some s) = .ok v ∧ uint4in a (some s) = .ok v ∧ uint8in (some s) = .ok v)
    ∧ (uint2in a (some s) = .ok v →
        uint4in a (some s) = .ok v ∧ uint8in (some s) = .ok v)
    ∧ (uint4in a (some s) = .ok v → uint8in (some s) = .ok v) := by
  refine ⟨?_, ?_, ?_⟩
  · intro h
    rw [uint1in_eq] at h
    rw [uint2in_eq, uint4in_eq, uint8in_eq]
    exact ⟨unsignedResult_mono (by decide) h, unsignedResult_mono (by decide) h,
      unsignedResult_mono (by decide) h⟩
  · intro h
    rw [uint2in_eq] at h
    rw [uint4in_eq, uint8in_eq]
    exact ⟨unsignedResult_mono (by decide) h, unsignedResult_mono (by decide) h⟩
  · intro h
    rw [uint4in_eq] at h
    rw [uint8in_eq]
    exact unsignedResult_mono (by decide) h

/-- C19 at " 200 ", "60000" and "4000000000", where `long` has 32 bits. -/
theorem C19_upward_agreement_witness :
    (uint2in .ilp32 (some " 200 ".toList) = .ok 200
      ∧ uint4in .ilp32 (some " 200 ".toList) = .ok 200
      ∧ uint8in (some " 200 ".toList) = .ok 200)
    ∧ (uint4in .ilp32 (some "60000".toList) = .ok 60000
      ∧ uint8in (some "60000".toList) = .ok 60000)
    ∧ uint8in (some "4000000000".toList) = .ok 4000000000 :=
  ⟨(C19_upward_agreement .ilp32 " 200 ".toList 200).1 (by decide),
   (C19_upward_agreement .ilp32 "60000".toList 60000).2.1 (by decide),
   (C19_upward_agreement .ilp32 "4000000000".toList 4000000000).2.2 (by decide)⟩

/-- C20: encoding undoes decoding on canonical text. For canonical digits
`ds` whose value is in the range of the width, the decoder accepts `ds` and the
encoder writes `ds` back from the value; for `int1` the same holds for `-`
followed by canonical digits of a non-zero magnitude of at most 128. -/
theorem C20_canonical_round_trip (a : Abi) (ds : List Char) (hc : Canonical ds) :
    (decimalValue ds ≤ 127 →
        int1in a (some ds) = .ok (decimalValue ds : Int)
        ∧ int1out (decimalValue ds : Int) = ds)
    ∧ (decimalValue ds ≠ 0 → decimalValue ds ≤ 128 →
        int1in a (some ('-' :: ds)) = .ok (-(decimalValue ds : Int))
        ∧ int1out (-(decimalValue ds : Int)) = '-' :: ds)
    ∧ (decimalValue ds ≤ 255 →
        uint1in a (some ds) = .ok (decimalValue ds) ∧ uint1out (decimalValue ds) = ds)
    ∧ (decimalValue ds ≤ 65535 →
        uint2in a (some ds) = .ok (decimalValue ds) ∧ uint2out (decimalValue ds) = ds)
    ∧ (decimalValue ds ≤ 4294967295 →
        uint4in a (some ds) = .ok (decimalValue ds) ∧ uint4out (decimalValue ds) = ds)
    ∧ (decimalValue ds ≤ 18446744073709551615 →
        uint8in (some ds) = .ok (decimalValue ds) ∧ uint8out (decimalValue ds) = ds) := by
  have hback := sprintf_u_decimalValue hc
  obtain ⟨hne, hd, _⟩ := hc
  refine ⟨?_, ?_, ?_, ?_, ?_, ?_⟩
  · intro h
    constructor
    · have hin := @int1in_signed_digits a [] ds (Or.inl rfl) hne hd
      have hv : signedValue [] ds = (decimalValue ds : Int) := by simp [signedValue]
      rw [List.nil_append, hv] at hin
      rw [hin, if_pos (by omega)]
    · have hv : PG_GETARG_INT8 (decimalValue ds : Int) = (decimalValue ds : Int) := by
        simp only [PG_GETARG_INT8, toSigned]; norm_num; omega
      have hnn : ¬ ((decimalValue ds : Int) < 0) := by omega
      rw [int1out, hv, sprintf_d, if_neg hnn, Int.natAbs_ofNat, hback]
  · intro h0 h
    constructor
    · have hin := @int1in_signed_digits a ['-'] ds (Or.inr (Or.inr rfl)) hne hd
      have hv : signedValue ['-'] ds = -(decimalValue ds : Int) := by simp [signedValue]
      rw [List.singleton_append, hv] at hin
      rw [hin, if_pos (by omega)]
    · have hv : PG_GETARG_INT8 (-(decimalValue ds : Int)) = -(decimalValue ds : Int) := by
        simp only [PG_GETARG_INT8, toSigned]; norm_num; omega
      have hneg : -(decimalValue ds : Int) < 0 := by omega
      rw [int1out, hv, sprintf_d, if_pos hneg, Int.natAbs_neg, Int.natAbs_ofNat, hback]
  · intro h
    have hv : PG_GETARG_UINT8 (decimalValue ds) = decimalValue ds :=
      Nat.mod_eq_of_lt (by norm_num; omega)
    exact ⟨by rw [uint1in_digits a hne hd, if_pos h], by rw [uint1out, hv, hback]⟩
  · intro h
    have hv : PG_GETARG_UINT16 (decimalValue ds) = decimalValue ds :=
      Nat.mod_eq_of_lt (by norm_num; omega)
    exact ⟨by rw [uint2in_digits a hne hd, if_pos h], by rw [uint2out, hv, hback]⟩
  · intro h
    have hv : PG_GETARG_UINT32 (decimalValue ds) = decimalValue ds :=
      Nat.mod_eq_of_lt (by norm_num; omega)
    exact ⟨by rw [uint4in_digits a hne hd, if_pos h], by rw [uint4out, hv, hback]⟩
  · intro h
    have hv : PG_GETARG_UINT64 (decimalValue ds) = decimalValue ds :=
      Nat.mod_eq_of_lt (by norm_num; omega)
    exact ⟨by rw [uint8in_digits hne hd, if_pos h], by rw [uint8out, hv, hback]⟩

/-- C20 at "127" and "-128" for `int1` and at the largest value of each
unsigned width. -/
theorem C20_canonical_round_trip_witness :
    (int1in .lp64 (some "127".toList) = .ok 127 ∧ int1out 127 = "127".toList)
    ∧ (int1in .lp64 (some "-128".toList) = .ok (-128) ∧ int1out (-128) = "-128".toList)
    ∧ (uint1in .lp64 (some "255".toList) = .ok 255 ∧ uint1out 255 = "255".toList)
    ∧ (uint2in .lp64 (some "65535".toList) = .ok 65535 ∧ uint2out 65535 = "65535".toList)
    ∧ (uint4in .lp64 (some "4294967295".toList) = .ok 4294967295
        ∧ uint4out 4294967295 = "4294967295".toList)
    ∧ (uint8in (some "18446744073709551615".toList) = .ok 18446744073709551615
        ∧ uint8out 18446744073709551615 = "18446744073709551615".toList) :=
  ⟨(C20_canonical_round_trip .lp64 "127".toList (by decide)).1 (by decide),
   (C20_canonical_round_trip .lp64 "128".toList (by decide)).2.1 (by decide) (by decide),
   (C20_canonical_round_trip .lp64 "255".toList (by decide)).2.2.1 (by decide),
   (C20_canonical_round_trip .lp64 "65535".toList (by decide)).2.2.2.1 (by decide),
   (C20_canonical_round_trip .lp64 "4294967295".toList (by decide)).2.2.2.2.1 (by decide),
   (C20_canonical_round_trip .lp64 "18446744073709551615".toList (by decide)).2.2.2.2.2
     (by decide)⟩

end PgUint
